import Mathlib

/-! mask-go: bitmap packing, colour streams and crop geometry

A shallow embedding of `mask/draw.go`.

* Go `byte`, `uint16`, `uint32` values are natural numbers; the places where the
  source narrows a value (`byte(r >> 8)`, `PutUint16`) carry an explicit `%`.
* Go `int` values are unbounded integers (`Int`); `/` on them is truncating (`Int.tdiv`).
* Go `float64` values are rationals. The luma of `getPixels` is rounded as the machine
  does it: every constant, product and sum is rounded to the nearest value with a 53-bit
  significand, ties to even (`roundF64`). The quotients and products of the crop and
  resize geometry are taken exactly. A quotient whose divisor may be zero is an `F64`,
  which adds the infinities and NaN.
* A `[]byte` is a `List Nat`, a `[][]byte` bitmap is a `List (List Nat)` (a list of
  columns, each a list of rows).
* Go `error` results are `Option Error`; `none` is `nil`.
* Messages sent to the logger at error level are collected in a list.
-/

namespace Mask

/-! ## Constants -/

/-- MaskWidth is the width of the mask. -/
def MaskWidth : Nat := 40

/-- MaskHeight is the height of the mask. -/
def MaskHeight : Nat := 12

/-- Go `error` values. No function of `draw.go` ever builds one itself. -/
abbrev Error := String

/-! ## EncodeBitmapForMask -/

/-- The `switch j` inside `EncodeBitmapForMask`, taken when `column[j] == 1`:
    the new value of the `uint16` accumulator `val` for row `j`.
    Rows 16 and above match no case and leave `val` unchanged. -/
def setRow (val : Nat) (j : Nat) : Nat :=
  match j with
  | 0 => val ||| 128
  | 1 => val ||| 64
  | 2 => val ||| 32
  | 3 => val ||| 16
  | 4 => val ||| 8
  | 5 => val ||| 4
  | 6 => val ||| 2
  | 7 => val ||| 1
  | 8 => val ||| 32768
  | 9 => val ||| 16384
  | 10 => val ||| 8192
  | 11 => val ||| 4096
  | 12 => val ||| 2048
  | 13 => val ||| 1024
  | 14 => val ||| 512
  | 15 => val ||| 256
  | _ => val

/-- One step of the inner loop `for j := range column`. -/
def columnStep (val : Nat) (jc : Nat × Nat) : Nat :=
  if jc.2 = 1 then setRow val jc.1 else val

/-- The inner loop of `EncodeBitmapForMask`: the `uint16` value `val` built from one
    column, starting from `var val uint16` (zero). Every constant of the switch is below
    `2^16`, so the value never leaves the 16-bit range. -/
def encodeColumn (column : List Nat) : Nat :=
  column.enum.foldl columnStep 0

/-- Go `binary.LittleEndian.PutUint16(b, v)` on a fresh 2-byte slice:
    `b[0] = byte(v)`, `b[1] = byte(v >> 8)`. -/
def putUint16 (v : Nat) : List Nat :=
  [v % 256, (v / 256) % 256]

/-- What a call of `EncodeBitmapForMask` produces: the two return values and the
    indices `i` of the columns reported through `log.Errorf("column %d wrong len ...")`. -/
structure EncodeOutput where
  results : List Nat
  err : Option Error
  logged : List Nat
  deriving DecidableEq, Repr

/-- The loop state of `EncodeBitmapForMask`: the bytes appended so far and the
    column indices logged so far. -/
structure EncodeState where
  results : List Nat
  logged : List Nat
  deriving DecidableEq, Repr

/-- One iteration of the outer loop `for i := range bitmap`. -/
def encodeStep (st : EncodeState) (ic : Nat × List Nat) : EncodeState :=
  let column := ic.2
  let logged := if column.length ≠ MaskHeight then st.logged ++ [ic.1] else st.logged
  let val := encodeColumn column
  let intBytes := putUint16 val
  { results := st.results ++ intBytes, logged := logged }

/-- EncodeBitmapForMask converts a bitmap to the custom mask format.
    The source always ends in `return results, nil`. -/
def EncodeBitmapForMask (bitmap : List (List Nat)) : EncodeOutput :=
  let st := bitmap.enum.foldl encodeStep { results := [], logged := [] }
  { results := st.results, err := none, logged := st.logged }

/-! ## Pixel sources

The Go `image` package, as far as `draw.go` uses it. A point or rectangle has `int`
coordinates. A pixel source is one of the standard in-memory raster images: it has a
bounds rectangle and a pixel buffer addressed by absolute coordinates, `At` returns a
fixed colour outside the bounds (the zero value of the colour type of the image), and
`SubImage` shares the buffer and narrows the bounds. Every such image implements
`SubImage`, so the type assertion in `cropImage` succeeds. -/

/-- The result of `color.Color.RGBA()`: four `uint32` channel values. -/
structure Color where
  r : Nat
  g : Nat
  b : Nat
  a : Nat
  deriving DecidableEq, Repr

/-- Go `image.Point`. -/
structure Point where
  X : Int
  Y : Int
  deriving DecidableEq, Repr

/-- Go `image.Rectangle`: the points with `Min.X <= x < Max.X`, `Min.Y <= y < Max.Y`. -/
structure Rectangle where
  Min : Point
  Max : Point
  deriving DecidableEq, Repr

/-- Go `image.ZR`, the zero rectangle. -/
def ZR : Rectangle := { Min := { X := 0, Y := 0 }, Max := { X := 0, Y := 0 } }

/-- Go `image.Rect(x0, y0, x1, y1)`: the coordinates are swapped where needed so that
    the result is well-formed. -/
def Rect (x0 y0 x1 y1 : Int) : Rectangle :=
  let (x0, x1) := if x0 > x1 then (x1, x0) else (x0, x1)
  let (y0, y1) := if y0 > y1 then (y1, y0) else (y0, y1)
  { Min := { X := x0, Y := y0 }, Max := { X := x1, Y := y1 } }

/-- Go `Rectangle.Dx`: the width. -/
def Rectangle.Dx (r : Rectangle) : Int := r.Max.X - r.Min.X

/-- Go `Rectangle.Dy`: the height. -/
def Rectangle.Dy (r : Rectangle) : Int := r.Max.Y - r.Min.Y

/-- Go `Rectangle.Empty`. -/
def Rectangle.Empty (r : Rectangle) : Bool :=
  decide (r.Min.X ≥ r.Max.X) || decide (r.Min.Y ≥ r.Max.Y)

/-- Go `Point.In`. -/
def Point.In (p : Point) (r : Rectangle) : Bool :=
  decide (r.Min.X ≤ p.X) && decide (p.X < r.Max.X)
    && decide (r.Min.Y ≤ p.Y) && decide (p.Y < r.Max.Y)

/-- Go `Rectangle.Intersect`: the largest rectangle contained in both, `ZR` when the
    two do not overlap. -/
def Rectangle.Intersect (r s : Rectangle) : Rectangle :=
  let minX := if r.Min.X < s.Min.X then s.Min.X else r.Min.X
  let minY := if r.Min.Y < s.Min.Y then s.Min.Y else r.Min.Y
  let maxX := if r.Max.X > s.Max.X then s.Max.X else r.Max.X
  let maxY := if r.Max.Y > s.Max.Y then s.Max.Y else r.Max.Y
  let r' : Rectangle := { Min := { X := minX, Y := minY }, Max := { X := maxX, Y := maxY } }
  if r'.Empty then ZR else r'

/-- A pixel source: bounds, a pixel buffer addressed by absolute coordinates, and the
    channel values of the colour that `At` returns outside the bounds. -/
structure Image where
  bounds : Rectangle
  pix : Int → Int → Color
  outside : Color

/-- Go `img.At(x, y).RGBA()`: the stored pixel inside the bounds, the fixed colour
    outside. -/
def Image.At (img : Image) (x y : Int) : Color :=
  if (Point.mk x y).In img.bounds then img.pix x y else img.outside

/-- Go `SubImage(r)`: the part of the image visible through `r`, sharing the pixels. -/
def Image.SubImage (img : Image) (r : Rectangle) : Image :=
  { bounds := r.Intersect img.bounds, pix := img.pix, outside := img.outside }

/-! ## getPixels

The luma is a `float64` expression. A finite `float64` value is a rational number; the
conversions `float64(r)` of the `uint32` channel values are exact; the constants
`0.299`, `0.587`, `0.114` are converted to `float64` by rounding; every product and
every sum is computed exactly and then rounded, one operation at a time, left to right
(no fused multiply-add, as in the default build for amd64). The values that occur are
far inside the exponent range of `float64`, so the exponent is left unbounded. -/

/-- Rounding of a rational to the nearest integer, ties to the even one. -/
def roundHalfEven (m : ℚ) : Int :=
  let f := ⌊m⌋
  if m - f < 1 / 2 then f
  else if 1 / 2 < m - f then f + 1
  else if f % 2 = 0 then f else f + 1

/-- Rounding of a rational to `float64`: the nearest value with a 53-bit significand,
    ties to the even significand. For `2^e <= |x| < 2^(e+1)` the spacing of the
    `float64` values is `2^(e-52)`. -/
def roundF64 (x : ℚ) : ℚ :=
  if x = 0 then 0
  else
    let ulp : ℚ := 2 ^ (Int.log 2 |x| - 52)
    (roundHalfEven (x / ulp) : ℚ) * ulp

/-- The luma `gry := 0.299*float64(r) + 0.587*float64(g) + 0.114*float64(b)`. -/
def gry (c : Color) : ℚ :=
  roundF64
    (roundF64 (roundF64 (roundF64 0.299 * (c.r : ℚ)) + roundF64 (roundF64 0.587 * (c.g : ℚ)))
      + roundF64 (roundF64 0.114 * (c.b : ℚ)))

/-- The value of `binaryVal` for one pixel: `var binaryVal byte` set to 1 when
    `gry > 15000`. -/
def binaryVal (c : Color) : Nat :=
  if gry c > 15000 then 1 else 0

/-- The inner loop of `getPixels`: the column for `x`, rows `0 .. height-1`. -/
def pixelColumn (img : Image) (x : Int) (height : Nat) : List Nat :=
  (List.range height).foldl
    (fun column (y : Nat) => column ++ [binaryVal (img.At x (y : Int))]) []

/-- Get the bi-dimensional pixel array: `getPixels` with `width = bounds.Max.X` and
    `height = MaskHeight`, returning the bitmap and a nil error. The debugging copy
    written into `grayImg` is not part of the result and is left out. -/
def getPixels (img : Image) : List (List Nat) × Option Error :=
  let width := img.bounds.Max.X
  let height := MaskHeight
  let pixels := (List.range width.toNat).foldl
    (fun pixels (x : Nat) => pixels ++ [pixelColumn img (x : Int) height]) []
  (pixels, none)

/-! ## Colour streams -/

/-- EncodeColorArrayForMask encodes a white color array: the loop
    `for i := 0; i < columns; i++` appends the three bytes `0xFF, 0xFF, 0xFF`. -/
def EncodeColorArrayForMask (columns : Int) : List Nat :=
  (List.range columns.toNat).foldl (fun results _ => results ++ [0xFF, 0xFF, 0xFF]) []

/-- Go `byte(v)`: conversion to `uint8` keeps the low eight bits. -/
def toByte (v : Nat) : Nat := v % 256

/-- The three bytes appended for one pixel: `byte(r >> 8), byte(g >> 8), byte(b >> 8)`. -/
def colorTriplet (c : Color) : List Nat :=
  [toByte (c.r >>> 8), toByte (c.g >>> 8), toByte (c.b >>> 8)]

/-- getImageSize returns the width and height of an image. -/
def getImageSize (img : Image) : Int × Int :=
  (img.bounds.Dx, img.bounds.Dy)

/-- EncodeColorArrayFromImageForMask encodes a color array from an image: for each
    `x < width` and each `y < MaskHeight`, in this order, the triplet of pixel `(x, y)`
    is appended to `results`. -/
def EncodeColorArrayFromImageForMask (img : Image) : List Nat :=
  let width := (getImageSize img).1
  (List.range width.toNat).foldl
    (fun results (x : Nat) =>
      (List.range MaskHeight).foldl
        (fun results (y : Nat) => results ++ colorTriplet (img.At (x : Int) (y : Int))) results)
    []

/-! ## The crop step of prepareImageForMask

The aspect ratios are `float64` quotients. A quotient of two converted integers is an
exact rational, or an infinity or NaN when the divisor is zero. -/

/-- A `float64` value: a finite value (kept exact), an infinity, or NaN. -/
inductive F64 where
  | fin (q : ℚ)
  | posInf
  | negInf
  | nan
  deriving DecidableEq

/-- The quotient `float64(a) / float64(b)` of two `int` values. -/
def F64.divInt (a b : Int) : F64 :=
  if b ≠ 0 then F64.fin ((a : ℚ) / (b : ℚ))
  else if a > 0 then F64.posInf
  else if a < 0 then F64.negInf
  else F64.nan

/-- The comparison `x > c` against a finite value; false for NaN. -/
def F64.gt (x : F64) (c : ℚ) : Bool :=
  match x with
  | F64.fin q => decide (q > c)
  | F64.posInf => true
  | F64.negInf => false
  | F64.nan => false

/-- The comparison `x < c` against a finite value; false for NaN. -/
def F64.lt (x : F64) (c : ℚ) : Bool :=
  match x with
  | F64.fin q => decide (q < c)
  | F64.posInf => false
  | F64.negInf => true
  | F64.nan => false

/-- Go `int(f)` for a finite `float64`: the fraction is discarded (truncation towards
    zero). -/
def truncToInt (q : ℚ) : Int :=
  if 0 ≤ q then ⌊q⌋ else ⌈q⌉

/-- The constant `maskAspect := float64(MaskWidth) / float64(MaskHeight)`. -/
def maskAspect : ℚ := (MaskWidth : ℚ) / (MaskHeight : ℚ)

/-- The arguments of a call `cropImage(img, width, height, x, y)`. -/
structure CropArgs where
  width : Int
  height : Int
  x : Int
  y : Int
  deriving DecidableEq, Repr

/-- The branch of the crop step of `prepareImageForMask` for an image of size
    `imgWidth x imgHeight`: the arguments passed to `cropImage`, or `none` when neither
    branch is taken. -/
def cropArgs (imgWidth imgHeight : Int) : Option CropArgs :=
  let imgAspect := F64.divInt imgWidth imgHeight
  if imgAspect.gt maskAspect then
    let newWidth := truncToInt ((imgHeight : ℚ) * maskAspect)
    some { width := newWidth, height := imgHeight,
           x := (imgWidth - newWidth).tdiv 2, y := 0 }
  else if imgAspect.lt maskAspect then
    let newHeight := truncToInt ((imgWidth : ℚ) / maskAspect)
    some { width := imgWidth, height := newHeight,
           x := 0, y := (imgHeight - newHeight).tdiv 2 }
  else none

/-- cropImage crops an image to the given width and height: the sub-image for
    `image.Rect(x, y, x+width, y+height)`, with a nil error. The rectangle is in the
    coordinates of the pixel buffer, not relative to the bounds of `img`. -/
def cropImage (img : Image) (width height x y : Int) : Image × Option Error :=
  (img.SubImage (Rect x y (x + width) (y + height)), none)

/-- The crop step of `prepareImageForMask` (the code up to the resize): the image
    held by `img` when the resize step starts. -/
def prepareImageForMask_crop (img : Image) : Image :=
  let (imgWidth, imgHeight) := getImageSize img
  match cropArgs imgWidth imgHeight with
  | some args => (cropImage img args.width args.height args.x args.y).1
  | none => img

/-! ## The resize and encode steps of prepareImageForMask

Two things are taken from outside `draw.go`: the result of `int(f)` for a `float64`
that is an infinity or NaN, which Go leaves to the implementation, and the function
`resize.Resize` of the package `github.com/nfnt/resize`. Both are fields of an `Env`,
and nothing is assumed about them. The PNG dumps to files and to standard output only
log their errors and are left out. -/

/-- What `prepareImageForMask` takes from outside `draw.go`. -/
structure Env where
  /-- Result of `int(f)` for an infinite or NaN `f` (implementation-dependent). -/
  intOfNonFinite : F64 → Int
  /-- The call `resize.Resize(width, height, img, resize.NearestNeighbor)`. -/
  resize : Nat → Nat → Image → Image

/-- The product `float64(n) * x` for an `int` value `n`. -/
def F64.mulInt (n : Int) (x : F64) : F64 :=
  match x with
  | F64.fin q => F64.fin ((n : ℚ) * q)
  | F64.posInf => if n > 0 then F64.posInf else if n < 0 then F64.negInf else F64.nan
  | F64.negInf => if n > 0 then F64.negInf else if n < 0 then F64.posInf else F64.nan
  | F64.nan => F64.nan

/-- Go `int(f)` for any `float64`: truncation for a finite value, the result chosen by
    the implementation otherwise. -/
def F64.toInt (E : Env) (x : F64) : Int :=
  match x with
  | F64.fin q => truncToInt q
  | _ => E.intOfNonFinite x

/-- Go `uint(n)` for an `int` on a 64-bit platform: the value modulo `2^64`. -/
def toUint (n : Int) : Nat := (n % 2 ^ 64).toNat

/-- The resize target `(newWidth, newHeight)` that `prepareImageForMask` computes from
    the image left by the crop step: `newHeight := MaskHeight` and
    `newWidth := int(float64(newHeight) * imgAspect)`. -/
def resizeTarget (E : Env) (img : Image) : Int × Int :=
  let (imgWidth, imgHeight) := getImageSize img
  let imgAspect := F64.divInt imgWidth imgHeight
  let newHeight : Int := MaskHeight
  let newWidth := F64.toInt E (F64.mulInt newHeight imgAspect)
  (newWidth, newHeight)

/-- ReisizeImage resizes an image to the given width and height: the result of
    `resize.Resize(uint(width), uint(height), img, resize.NearestNeighbor)` with a nil
    error. -/
def reisizeImage (E : Env) (img : Image) (width height : Int) : Image × Option Error :=
  (E.resize (toUint width) (toUint height) img, none)

/-- The image held by `img` in `prepareImageForMask` after the resize step. -/
def prepareImageForMask_resize (E : Env) (img : Image) : Image :=
  let img := prepareImageForMask_crop img
  let (newWidth, newHeight) := resizeTarget E img
  (reisizeImage E img newWidth newHeight).1

/-- How a call of `prepareImageForMask` ends. The function has two results,
    `bitmapMask` and `colorArray`, and no error result; with unbounded integers and
    memory, the only way not to return them is the run-time panic of the index
    expression `bitmap[0]`. -/
inductive Outcome where
  | frame (bitmapMask : List Nat) (colorArray : List Nat)
  | panicIndexOutOfRange
  deriving DecidableEq, Repr

/-- The last part of `prepareImageForMask`, from `getPixels` on, for the resized image
    `img`. The arguments of `log.Infof("bitmap size: %d x %d", len(bitmap),
    len(bitmap[0]))` are evaluated before the call, so an empty bitmap panics. -/
def encodeFrame (img : Image) : Outcome :=
  let bitmap := (getPixels img).1
  match bitmap with
  | [] => Outcome.panicIndexOutOfRange
  | _ :: _ =>
    let bitmapMask := (EncodeBitmapForMask bitmap).results
    let colorArray := EncodeColorArrayFromImageForMask img
    Outcome.frame bitmapMask colorArray

/-- prepareImageForMask prepares an image for the mask: crop, resize, threshold, pack. -/
def prepareImageForMask (E : Env) (img : Image) : Outcome :=
  encodeFrame (prepareImageForMask_resize E img)

/-- An environment whose resize returns its input, which is what `resize.Resize` does
    for an input image of width or height 0 and for a target that is the size the image
    already has; `int(NaN)` is as on amd64. -/
def keepEnv : Env :=
  { intOfNonFinite := fun _ => -9223372036854775808, resize := fun _ _ img => img }

/-- An RGBA image whose pixels all have the colour `c`. -/
def uniformImage (bounds : Rectangle) (c : Color) : Image :=
  { bounds := bounds, pix := fun _ _ => c, outside := { r := 0, g := 0, b := 0, a := 0 } }

/-! ## Auxiliary definitions for the luma proofs -/

/-- The exact luma `0.299 R + 0.587 G + 0.114 B`, without any rounding. -/
def exactLuma (c : Color) : ℚ :=
  299 / 1000 * (c.r : ℚ) + 587 / 1000 * (c.g : ℚ) + 114 / 1000 * (c.b : ℚ)

/-- The value `x` lies within the relative distance `(1 ± 2^-53)^k` of the value `t`:
    what `k` roundings can do to a non-negative `t`. -/
def Near (k : Nat) (t x : ℚ) : Prop :=
  t * (1 - 1 / 2 ^ 53) ^ k ≤ x ∧ x ≤ t * (1 + 1 / 2 ^ 53) ^ k

/-! ## Auxiliary definitions for the packing proofs -/

/-- Weight that row `j` contributes to the 16-bit column value (0 from row 16 on). -/
def rowWeight (j : Nat) : Nat :=
  if j < 8 then 2 ^ (7 - j) else if j < 16 then 2 ^ (23 - j) else 0

/-- Bit position of row `j` in the little-endian 16-bit word. -/
def rowBit (j : Nat) : Nat :=
  if j < 8 then 7 - j else 23 - j

/-- The column value as a sum: rows of `column` are numbered from `n`. -/
def colSum (n : Nat) : List Nat → Nat
  | [] => 0
  | c :: cs => (if c = 1 then rowWeight n else 0) + colSum (n + 1) cs

/-- Row `j` of `col` exists and holds the value 1. -/
abbrev rowSet (col : List Nat) (j : Nat) : Prop := col[j]? = some 1

/-- Low-byte sum of a column: rows 0..7, row `j` weighing `2^(7-j)`. -/
def lowSum (col : List Nat) : Nat :=
  ∑ j in (Finset.range 8).filter (fun j => rowSet col j), 2 ^ (7 - j)

/-- High-byte sum of a column: rows 8..15, row `j` weighing `2^(15-j)`. -/
def highSum (col : List Nat) : Nat :=
  ∑ j in (Finset.Ico 8 16).filter (fun j => rowSet col j), 2 ^ (15 - j)

/-- The two bytes emitted for one column. -/
def columnBytes (col : List Nat) : List Nat := putUint16 (encodeColumn col)

/-! ## Decoding a packed bitmap (specification side) -/

/-- A bitmap all of whose columns have exactly 16 entries, each 0 or 1. -/
abbrev IsBinary16 (bitmap : List (List Nat)) : Prop :=
  ∀ col ∈ bitmap, col.length = 16 ∧ ∀ e ∈ col, e = 0 ∨ e = 1

/-- Word `i` of a packed bitmap, read as a little-endian 16-bit value. -/
def wordAt (bytes : List Nat) (i : Nat) : Nat :=
  bytes.getD (2 * i) 0 + 256 * bytes.getD (2 * i + 1) 0

/-- The bit decoded for row `j` from a 16-bit word: bit `7 - j` for rows 0..7 and
    bit `23 - j` for rows 8..15. -/
def decodeRow (word j : Nat) : Nat :=
  if word.testBit (if j < 8 then 7 - j else 23 - j) then 1 else 0

/-- The triplets of one pixel column, rows `0 .. MaskHeight-1`. -/
def columnTriplets (img : Image) (x : Nat) : List Nat :=
  ((List.range MaskHeight).map (fun (y : Nat) => colorTriplet (img.At (x : Int) (y : Int)))).flatten

/-! ## Packing: auxiliary facts -/

theorem setRow_eq_lor (val j : Nat) : setRow val j = val ||| rowWeight j := by
  rcases j with _|_|_|_|_|_|_|_|_|_|_|_|_|_|_|_|j
  all_goals first
    | rfl
    | (have h : rowWeight (j + 16) = 0 := by unfold rowWeight; simp
       rw [h, Nat.or_zero]; rfl)

theorem rowWeight_eq_pow {j : Nat} (h : j < 16) : rowWeight j = 2 ^ rowBit j := by
  unfold rowWeight rowBit
  split_ifs <;> rfl

theorem rowWeight_of_ge {j : Nat} (h : 16 ≤ j) : rowWeight j = 0 := by
  unfold rowWeight
  rw [if_neg (by omega), if_neg (by omega)]

theorem rowBit_inj {i j : Nat} (hi : i < 16) (hj : j < 16) (h : rowBit i = rowBit j) :
    i = j := by
  unfold rowBit at h
  split_ifs at h <;> omega

/-- OR-ing in a power of two whose bit is clear is the same as adding it. -/
theorem two_pow_lor_eq_add (p x : Nat) (h : x.testBit p = false) :
    2 ^ p ||| x = 2 ^ p + x := by
  have hmod : x % 2 ^ (p + 1) < 2 ^ p := by
    have h1 : x / 2 ^ p % 2 = 0 := by
      rw [Nat.testBit_to_div_mod] at h
      have := Nat.mod_two_eq_zero_or_one (x / 2 ^ p)
      rcases this with h0 | h1
      · exact h0
      · simp [h1] at h
    rw [Nat.mod_pow_succ, h1, Nat.mul_zero, Nat.add_zero]
    exact Nat.mod_lt _ (Nat.two_pow_pos p)
  have hx : x = 2 ^ (p + 1) * (x / 2 ^ (p + 1)) + x % 2 ^ (p + 1) :=
    (Nat.div_add_mod x (2 ^ (p + 1))).symm
  have hlt : 2 ^ p + x % 2 ^ (p + 1) < 2 ^ (p + 1) := by
    have h2 : 2 ^ (p + 1) = 2 ^ p + 2 ^ p := by rw [Nat.pow_succ]; omega
    generalize 2 ^ (p + 1) = q at hmod h2 ⊢
    omega
  have hsum : 2 ^ p + x
      = 2 ^ (p + 1) * (x / 2 ^ (p + 1)) + (2 ^ p + x % 2 ^ (p + 1)) := by omega
  apply Nat.eq_of_testBit_eq
  intro k
  rw [Nat.testBit_or, Nat.testBit_two_pow]
  rcases Nat.lt_trichotomy k p with hk | hk | hk
  · rw [Nat.testBit_two_pow_add_gt hk]
    have : ¬ p = k := by omega
    simp [this]
  · subst hk
    rw [Nat.testBit_two_pow_add_eq, h]
    simp
  · have hne : ¬ p = k := by omega
    have hk1 : ¬ k < p + 1 := by omega
    rw [hsum, Nat.testBit_mul_pow_two_add _ hlt, if_neg hk1]
    conv_lhs => rw [hx]
    rw [Nat.testBit_mul_pow_two_add _ (Nat.mod_lt _ (Nat.two_pow_pos (p + 1))), if_neg hk1]
    simp [hne]

theorem colSum_cons (n c : Nat) (cs : List Nat) :
    colSum n (c :: cs) = (if c = 1 then rowWeight n else 0) + colSum (n + 1) cs := rfl

theorem colSum_testBit_iff (col : List Nat) :
    ∀ (n k : Nat), (colSum n col).testBit k = true
      ↔ ∃ j, col[j]? = some 1 ∧ n + j < 16 ∧ rowBit (n + j) = k := by
  induction col with
  | nil => intro n k; simp [colSum]
  | cons c cs ih =>
    intro n k
    have hex : (∃ j, (c :: cs)[j]? = some 1 ∧ n + j < 16 ∧ rowBit (n + j) = k)
        ↔ ((c = 1 ∧ n < 16 ∧ rowBit n = k) ∨ (colSum (n + 1) cs).testBit k = true) := by
      rw [ih]
      constructor
      · rintro ⟨j, h1, h2, h3⟩
        cases j with
        | zero =>
          left
          simp only [List.getElem?_cons_zero, Option.some.injEq] at h1
          exact ⟨h1, h2, h3⟩
        | succ m =>
          right
          rw [List.getElem?_cons_succ] at h1
          exact ⟨m, h1, by omega, by rw [← h3]; congr 1; omega⟩
      · rintro (⟨h1, h2, h3⟩ | ⟨m, h1, h2, h3⟩)
        · exact ⟨0, by simp [h1], h2, h3⟩
        · exact ⟨m + 1, by simpa using h1, by omega, by rw [← h3]; congr 1; omega⟩
    rw [hex, colSum_cons]
    by_cases hc : c = 1
    · by_cases hn : n < 16
      · have hclear : (colSum (n + 1) cs).testBit (rowBit n) = false := by
          by_contra hb
          rw [Bool.not_eq_false] at hb
          obtain ⟨j, _, h2, h3⟩ := (ih (n + 1) (rowBit n)).1 hb
          have := rowBit_inj h2 hn h3
          omega
        rw [if_pos hc, rowWeight_eq_pow hn, ← two_pow_lor_eq_add _ _ hclear,
          Nat.testBit_or, Nat.testBit_two_pow, Bool.or_eq_true]
        simp [hc, hn]
      · rw [if_pos hc, rowWeight_of_ge (by omega), Nat.zero_add]
        simp [hn]
    · rw [if_neg hc, Nat.zero_add]
      simp [hc]

theorem colSum_testBit (col : List Nat) (n k : Nat) (h : (colSum n col).testBit k = true) :
    ∃ j, n ≤ j ∧ j < 16 ∧ rowBit j = k := by
  obtain ⟨j, _, h2, h3⟩ := (colSum_testBit_iff col n k).1 h
  exact ⟨n + j, by omega, h2, h3⟩

theorem foldl_columnStep (col : List Nat) :
    ∀ (n val : Nat), (col.enumFrom n).foldl columnStep val = val ||| colSum n col := by
  induction col with
  | nil => intro n val; simp [colSum]
  | cons c cs ih =>
    intro n val
    rw [List.enumFrom_cons, List.foldl_cons, ih, colSum_cons]
    unfold columnStep
    by_cases hc : c = 1
    · simp only [hc, if_true]
      rw [setRow_eq_lor, Nat.or_assoc]
      by_cases hn : n < 16
      · have hclear : (colSum (n + 1) cs).testBit (rowBit n) = false := by
          by_contra hb
          rw [Bool.not_eq_false] at hb
          obtain ⟨j, h1, h2, h3⟩ := colSum_testBit cs (n + 1) (rowBit n) hb
          have := rowBit_inj h2 hn h3
          omega
        rw [rowWeight_eq_pow hn, two_pow_lor_eq_add _ _ hclear]
      · rw [rowWeight_of_ge (by omega), Nat.zero_or, Nat.zero_add]
    · simp only [hc, if_false, Nat.zero_add]

theorem encodeColumn_eq_colSum (col : List Nat) : encodeColumn col = colSum 0 col := by
  unfold encodeColumn List.enum
  rw [foldl_columnStep, Nat.zero_or]

/-- Bit `rowBit j` of the packed column value is set exactly when row `j` holds 1. -/
theorem encodeColumn_testBit (col : List Nat) {j : Nat} (hj : j < 16) :
    (encodeColumn col).testBit (rowBit j) = true ↔ col[j]? = some 1 := by
  rw [encodeColumn_eq_colSum, colSum_testBit_iff]
  constructor
  · rintro ⟨m, h1, h2, h3⟩
    rw [Nat.zero_add] at h2 h3
    have := rowBit_inj h2 hj h3
    subst this
    exact h1
  · intro h
    exact ⟨j, h, by omega, by rw [Nat.zero_add]⟩

theorem colSum_eq_sum_range (col : List Nat) :
    ∀ n, colSum n col
      = ∑ j in Finset.range col.length, if col[j]? = some 1 then rowWeight (n + j) else 0 := by
  induction col with
  | nil => intro n; simp [colSum]
  | cons c cs ih =>
    intro n
    rw [colSum_cons, ih, List.length_cons, Finset.sum_range_succ']
    simp only [List.getElem?_cons_succ, List.getElem?_cons_zero, Option.some.injEq, Nat.add_zero]
    rw [Nat.add_comm]
    congr 1
    apply Finset.sum_congr rfl
    intro j _
    rw [show n + 1 + j = n + (j + 1) by omega]

theorem colSum_eq_sum_sixteen (col : List Nat) :
    colSum 0 col = ∑ j in Finset.range 16, if rowSet col j then rowWeight j else 0 := by
  rw [colSum_eq_sum_range]
  simp only [Nat.zero_add]
  have h1 : ∑ j in Finset.range col.length, (if col[j]? = some 1 then rowWeight j else 0)
      = ∑ j in Finset.range (max col.length 16),
          (if col[j]? = some 1 then rowWeight j else 0) := by
    apply Finset.sum_subset
    · intro j hj
      rw [Finset.mem_range] at hj ⊢
      exact lt_of_lt_of_le hj (le_max_left _ _)
    · intro j _ hj
      rw [Finset.mem_range, not_lt] at hj
      rw [List.getElem?_eq_none hj]
      simp
  have h2 : ∑ j in Finset.range 16, (if col[j]? = some 1 then rowWeight j else 0)
      = ∑ j in Finset.range (max col.length 16),
          (if col[j]? = some 1 then rowWeight j else 0) := by
    apply Finset.sum_subset
    · intro j hj
      rw [Finset.mem_range] at hj ⊢
      exact lt_of_lt_of_le hj (le_max_right _ _)
    · intro j _ hj
      rw [Finset.mem_range, not_lt] at hj
      rw [rowWeight_of_ge hj]
      simp
  rw [h1, ← h2]

theorem lowSum_lt (col : List Nat) : lowSum col < 256 := by
  have h : lowSum col ≤ ∑ j in Finset.range 8, 2 ^ (7 - j) :=
    Finset.sum_le_sum_of_subset (Finset.filter_subset _ _)
  have h255 : ∑ j in Finset.range 8, 2 ^ (7 - j) = 255 := by decide
  omega

theorem highSum_lt (col : List Nat) : highSum col < 256 := by
  have h : highSum col ≤ ∑ j in Finset.Ico 8 16, 2 ^ (15 - j) :=
    Finset.sum_le_sum_of_subset (Finset.filter_subset _ _)
  have h255 : ∑ j in Finset.Ico 8 16, 2 ^ (15 - j) = 255 := by decide
  omega

theorem encodeColumn_eq (col : List Nat) :
    encodeColumn col = lowSum col + 256 * highSum col := by
  rw [encodeColumn_eq_colSum, colSum_eq_sum_sixteen,
    ← Finset.sum_range_add_sum_Ico _ (show 8 ≤ 16 by omega)]
  unfold lowSum highSum
  rw [Finset.sum_filter, Finset.sum_filter, Finset.mul_sum]
  refine congrArg₂ (· + ·) ?_ ?_
  · apply Finset.sum_congr rfl
    intro j hj
    rw [Finset.mem_range] at hj
    have : rowWeight j = 2 ^ (7 - j) := by unfold rowWeight; rw [if_pos hj]
    rw [this]
  · apply Finset.sum_congr rfl
    intro j hj
    rw [Finset.mem_Ico] at hj
    have : rowWeight j = 256 * 2 ^ (15 - j) := by
      unfold rowWeight
      rw [if_neg (by omega), if_pos hj.2, show 23 - j = 8 + (15 - j) by omega, Nat.pow_add]
    rw [this]
    split_ifs <;> simp

theorem encodeColumn_lt (col : List Nat) : encodeColumn col < 65536 := by
  have h1 := lowSum_lt col
  have h2 := highSum_lt col
  rw [encodeColumn_eq]
  omega

theorem putUint16_encodeColumn (col : List Nat) :
    putUint16 (encodeColumn col) = [lowSum col, highSum col] := by
  have h1 := lowSum_lt col
  have h2 := highSum_lt col
  unfold putUint16
  rw [encodeColumn_eq]
  congr 1
  · omega
  · congr 1
    omega

theorem foldl_encodeStep_results (bitmap : List (List Nat)) :
    ∀ (n : Nat) (st : EncodeState),
      ((bitmap.enumFrom n).foldl encodeStep st).results
        = st.results ++ (bitmap.map columnBytes).flatten := by
  induction bitmap with
  | nil => intro n st; simp
  | cons c cs ih =>
    intro n st
    rw [List.enumFrom_cons, List.foldl_cons, ih]
    simp [encodeStep, columnBytes]

theorem EncodeBitmapForMask_results (bitmap : List (List Nat)) :
    (EncodeBitmapForMask bitmap).results = (bitmap.map columnBytes).flatten := by
  unfold EncodeBitmapForMask List.enum
  simp only [foldl_encodeStep_results, List.nil_append]

theorem flatten_pairs_length {α : Type} (f g : α → Nat) (l : List α) :
    ((l.map (fun c => [f c, g c])).flatten).length = 2 * l.length := by
  induction l with
  | nil => rfl
  | cons c cs ih =>
    simp only [List.map_cons, List.flatten_cons, List.length_append, List.length_cons,
      List.length_nil, ih]
    omega

theorem flatten_pairs_get {α : Type} (f g : α → Nat) (l : List α) :
    ∀ i, ((l.map (fun c => [f c, g c])).flatten)[2 * i]? = l[i]?.map f
      ∧ ((l.map (fun c => [f c, g c])).flatten)[2 * i + 1]? = l[i]?.map g := by
  induction l with
  | nil => intro i; simp
  | cons c cs ih =>
    intro i
    cases i with
    | zero => simp
    | succ k =>
      have h := ih k
      simp only [List.map_cons, List.flatten_cons, List.cons_append, List.nil_append,
        show 2 * (k + 1) = 2 * k + 1 + 1 by omega, List.getElem?_cons_succ]
      exact h

theorem columnBytes_eq : columnBytes = fun col => [lowSum col, highSum col] := by
  funext col
  exact putUint16_encodeColumn col

theorem EncodeBitmapForMask_results_length (bitmap : List (List Nat)) :
    (EncodeBitmapForMask bitmap).results.length = 2 * bitmap.length := by
  rw [EncodeBitmapForMask_results, columnBytes_eq]
  exact flatten_pairs_length lowSum highSum bitmap

theorem wordAt_EncodeBitmapForMask (bitmap : List (List Nat)) {i : Nat}
    (hi : i < bitmap.length) :
    wordAt (EncodeBitmapForMask bitmap).results i = encodeColumn bitmap[i] := by
  unfold wordAt
  rw [List.getD_eq_getElem?_getD, List.getD_eq_getElem?_getD, EncodeBitmapForMask_results,
    columnBytes_eq]
  have h := flatten_pairs_get lowSum highSum bitmap i
  rw [h.1, h.2, List.getElem?_eq_getElem hi, encodeColumn_eq]
  rfl

theorem decodeRow_encodeColumn {col : List Nat} (hlen : col.length = 16)
    (hbin : ∀ e ∈ col, e = 0 ∨ e = 1) {j : Nat} (hj : j < 16) :
    col[j]? = some (decodeRow (encodeColumn col) j) := by
  have hjl : j < col.length := by omega
  have hbit := encodeColumn_testBit col hj
  rw [List.getElem?_eq_getElem hjl, Option.some.injEq] at hbit
  rw [List.getElem?_eq_getElem hjl, Option.some.injEq]
  have hdec : decodeRow (encodeColumn col) j
      = if (encodeColumn col).testBit (rowBit j) then 1 else 0 := rfl
  rw [hdec]
  rcases hbin _ (List.getElem_mem hjl) with h0 | h1
  · have : ¬ (encodeColumn col).testBit (rowBit j) = true := by
      rw [hbit, h0]; decide
    rw [if_neg this, h0]
  · rw [if_pos (hbit.2 h1), h1]

/-! ## Claims about EncodeBitmapForMask -/

/-- C1: for every bitmap, EncodeBitmapForMask returns a nil error, and for every
    column index `i` bytes `2i` and `2i+1` of its output are the low byte (the sum of
    `2^(7-j)` over the rows `j` in 0..7 holding 1) and the high byte (the sum of
    `2^(15-j)` over the rows `j` in 8..15 holding 1), low byte first; the 16-row
    column with rows 0 and 8 set packs to the bytes 0x80, 0x80. -/
theorem EncodeBitmapForMask_column_bytes (bitmap : List (List Nat)) :
    (EncodeBitmapForMask bitmap).err = none
    ∧ (∀ (i : Nat) (hi : i < bitmap.length),
        (EncodeBitmapForMask bitmap).results[2 * i]?
            = some (∑ j in (Finset.range 8).filter (fun j => bitmap[i][j]? = some 1),
                2 ^ (7 - j))
        ∧ (EncodeBitmapForMask bitmap).results[2 * i + 1]?
            = some (∑ j in (Finset.Ico 8 16).filter (fun j => bitmap[i][j]? = some 1),
                2 ^ (15 - j)))
    ∧ (EncodeBitmapForMask [[1, 0, 0, 0, 0, 0, 0, 0, 1, 0, 0, 0, 0, 0, 0, 0]]).results
        = [0x80, 0x80] := by
  refine ⟨rfl, ?_, by decide⟩
  intro i hi
  rw [EncodeBitmapForMask_results, columnBytes_eq]
  have h := flatten_pairs_get lowSum highSum bitmap i
  rw [h.1, h.2, List.getElem?_eq_getElem hi]
  exact ⟨rfl, rfl⟩

/-- Witness for C1: a ragged two-column bitmap, second column. -/
theorem EncodeBitmapForMask_column_bytes_witness :
    (EncodeBitmapForMask [[0, 1], [1, 0, 0, 0, 0, 0, 0, 1, 0, 1]]).results[2]? = some 129
    ∧ (EncodeBitmapForMask [[0, 1], [1, 0, 0, 0, 0, 0, 0, 1, 0, 1]]).results[3]? = some 64 :=
  (EncodeBitmapForMask_column_bytes [[0, 1], [1, 0, 0, 0, 0, 0, 0, 1, 0, 1]]).2.1 1 (by decide)

/-- C3: for every bitmap, ragged or not, the output of EncodeBitmapForMask has exactly
    `2 * len(bitmap)` bytes; the bitmap with no columns packs to the empty byte
    sequence with a nil error. -/
theorem EncodeBitmapForMask_length (bitmap : List (List Nat)) :
    (EncodeBitmapForMask bitmap).results.length = 2 * bitmap.length
    ∧ (EncodeBitmapForMask []).results = []
    ∧ (EncodeBitmapForMask []).err = none := by
  exact ⟨EncodeBitmapForMask_results_length bitmap, rfl, rfl⟩

/-- C2: round trip. For every bitmap whose columns all have exactly 16 entries, each
    0 or 1, reading word `i` of the packed output as a little-endian 16-bit value and
    testing bit `7-j` (rows 0..7) or bit `23-j` (rows 8..15) recovers entry `j` of
    column `i`; hence EncodeBitmapForMask is injective on such bitmaps. -/
theorem EncodeBitmapForMask_roundtrip (A : List (List Nat)) (hA : IsBinary16 A) :
    (∀ (i j : Nat) (hi : i < A.length), j < 16 →
        A[i][j]? = some (decodeRow (wordAt (EncodeBitmapForMask A).results i) j))
    ∧ (∀ B : List (List Nat), IsBinary16 B →
        (EncodeBitmapForMask B).results = (EncodeBitmapForMask A).results → B = A) := by
  have key : ∀ C : List (List Nat), IsBinary16 C → ∀ (i j : Nat) (hi : i < C.length), j < 16 →
      C[i][j]? = some (decodeRow (wordAt (EncodeBitmapForMask C).results i) j) := by
    intro C hC i j hi hj
    rw [wordAt_EncodeBitmapForMask C hi]
    have hc := hC _ (List.getElem_mem hi)
    exact decodeRow_encodeColumn hc.1 hc.2 hj
  refine ⟨key A hA, ?_⟩
  intro B hB hres
  have hlen : B.length = A.length := by
    have h1 := EncodeBitmapForMask_results_length A
    have h2 := EncodeBitmapForMask_results_length B
    rw [hres] at h2
    omega
  apply List.ext_getElem hlen
  intro i hiB hiA
  apply List.ext_getElem?
  intro j
  by_cases hj : j < 16
  · rw [key B hB i j hiB hj, key A hA i j hiA hj, hres]
  · have hb := (hB _ (List.getElem_mem hiB)).1
    have ha := (hA _ (List.getElem_mem hiA)).1
    rw [List.getElem?_eq_none (by omega), List.getElem?_eq_none (by omega)]

/-- Witness for C2: a one-column bitmap with rows 0, 8 and 15 set. -/
theorem EncodeBitmapForMask_roundtrip_witness :
    IsBinary16 [[1, 0, 0, 0, 0, 0, 0, 0, 1, 0, 0, 0, 0, 0, 0, 1]]
    ∧ [1, 0, 0, 0, 0, 0, 0, 0, 1, 0, 0, 0, 0, 0, 0, 1][15]?
        = some (decodeRow (wordAt (EncodeBitmapForMask
            [[1, 0, 0, 0, 0, 0, 0, 0, 1, 0, 0, 0, 0, 0, 0, 1]]).results 0) 15) :=
  ⟨by decide,
    (EncodeBitmapForMask_roundtrip [[1, 0, 0, 0, 0, 0, 0, 0, 1, 0, 0, 0, 0, 0, 0, 1]]
      (by decide)).1 0 15 (by decide) (by decide)⟩

theorem foldl_encodeStep_logged (l : List (Nat × List Nat)) :
    ∀ st : EncodeState, (l.foldl encodeStep st).logged
      = st.logged ++ (l.filter (fun ic => decide (ic.2.length ≠ MaskHeight))).map Prod.fst := by
  induction l with
  | nil => intro st; simp
  | cons ic rest ih =>
    intro st
    rw [List.foldl_cons, ih]
    by_cases h : ic.2.length = MaskHeight
    · simp [encodeStep, h]
    · simp [encodeStep, h]

/-- C4 (as amended): EncodeBitmapForMask never fails. For every bitmap it returns a nil
    error together with two packed bytes per column; a column whose number of entries
    differs from MaskHeight is only reported in the error log, under its index. -/
theorem EncodeBitmapForMask_never_fails (bitmap : List (List Nat)) :
    (EncodeBitmapForMask bitmap).err = none
    ∧ (EncodeBitmapForMask bitmap).results.length = 2 * bitmap.length
    ∧ ∀ i : Nat, i ∈ (EncodeBitmapForMask bitmap).logged
        ↔ ∃ col, bitmap[i]? = some col ∧ col.length ≠ MaskHeight := by
  refine ⟨rfl, EncodeBitmapForMask_results_length bitmap, ?_⟩
  · intro i
    have h : (EncodeBitmapForMask bitmap).logged
        = (bitmap.enum.filter (fun ic => decide (ic.2.length ≠ MaskHeight))).map Prod.fst := by
      unfold EncodeBitmapForMask
      simp only [foldl_encodeStep_logged, List.nil_append]
    rw [h, List.mem_map]
    constructor
    · rintro ⟨⟨k, col⟩, hmem, hk⟩
      rw [List.mem_filter, List.mk_mem_enum_iff_getElem?] at hmem
      simp only at hk
      subst hk
      exact ⟨col, hmem.1, by simpa using hmem.2⟩
    · rintro ⟨col, hcol, hlen⟩
      refine ⟨(i, col), ?_, rfl⟩
      rw [List.mem_filter, List.mk_mem_enum_iff_getElem?]
      exact ⟨hcol, by simpa using hlen⟩

/-- C4 (counterexample): the one-column bitmap whose column has a single entry, which
    is neither 12 nor 16 rows, is packed into the bytes 0x80, 0x00 with a nil error;
    the column is only logged. -/
theorem EncodeBitmapForMask_wrong_len_nil_error :
    ([1] : List Nat).length ≠ MaskHeight
    ∧ ([1] : List Nat).length ≠ 16
    ∧ (EncodeBitmapForMask [[1]]).err = none
    ∧ (EncodeBitmapForMask [[1]]).results = [0x80, 0x00]
    ∧ (EncodeBitmapForMask [[1]]).logged = [0] := by
  decide

/-! ## Rounding to float64 and the luma: auxiliary facts -/

theorem roundHalfEven_ge_floor (m : ℚ) : ⌊m⌋ ≤ roundHalfEven m := by
  unfold roundHalfEven
  simp only
  split_ifs <;> omega

theorem roundHalfEven_le_floor_succ (m : ℚ) : roundHalfEven m ≤ ⌊m⌋ + 1 := by
  unfold roundHalfEven
  simp only
  split_ifs <;> omega

theorem roundHalfEven_sub_le (m : ℚ) : ((roundHalfEven m : Int) : ℚ) - m ≤ 1 / 2 := by
  have h1 := Int.floor_le m
  have h2 := Int.lt_floor_add_one m
  unfold roundHalfEven
  simp only
  split_ifs with ha hb hc
  · linarith
  · push_cast; linarith
  · linarith
  · push_cast; linarith

theorem sub_roundHalfEven_le (m : ℚ) : m - ((roundHalfEven m : Int) : ℚ) ≤ 1 / 2 := by
  have h1 := Int.floor_le m
  have h2 := Int.lt_floor_add_one m
  unfold roundHalfEven
  simp only
  split_ifs with ha hb hc
  · linarith
  · push_cast; linarith
  · linarith
  · push_cast; linarith

theorem roundHalfEven_mono {m n : ℚ} (h : m ≤ n) : roundHalfEven m ≤ roundHalfEven n := by
  have hfl : ⌊m⌋ ≤ ⌊n⌋ := Int.floor_mono h
  rcases lt_or_eq_of_le hfl with hlt | heq
  · have h1 := roundHalfEven_le_floor_succ m
    have h2 := roundHalfEven_ge_floor n
    omega
  · unfold roundHalfEven
    simp only
    rw [← heq]
    split_ifs <;> first | omega | (exfalso; linarith)

theorem le_roundHalfEven {a : Int} {m : ℚ} (h : (a : ℚ) ≤ m) : a ≤ roundHalfEven m :=
  le_trans (Int.le_floor.2 h) (roundHalfEven_ge_floor m)

theorem roundHalfEven_le {b : Int} {m : ℚ} (h : m ≤ (b : ℚ)) : roundHalfEven m ≤ b := by
  have h1 : roundHalfEven (b : ℚ) = b := by
    unfold roundHalfEven
    simp
  rw [← h1]
  exact roundHalfEven_mono h

theorem roundHalfEven_eq_of_abs_lt {m : ℚ} {n : Int} (h : |m - (n : ℚ)| < 1 / 2) :
    roundHalfEven m = n := by
  rw [abs_lt] at h
  have h5 : ((n - 1 : Int) : ℚ) < ((roundHalfEven m : Int) : ℚ) := by
    have := sub_roundHalfEven_le m
    push_cast; linarith
  have h6 : ((roundHalfEven m : Int) : ℚ) < ((n + 1 : Int) : ℚ) := by
    have := roundHalfEven_sub_le m
    push_cast; linarith
  have h7 := Int.cast_lt.1 h5
  have h8 := Int.cast_lt.1 h6
  omega

/-- The unit in the last place used for rounding a positive `x`. -/
theorem ulp_pos (x : ℚ) : (0 : ℚ) < 2 ^ (Int.log 2 |x| - 52) := by positivity

theorem ulp_mul (e : Int) : (2 : ℚ) ^ (e - 52) * 2 ^ (52 : Int) = 2 ^ e := by
  rw [← zpow_add₀ (by norm_num : (2 : ℚ) ≠ 0)]
  congr 1
  omega

theorem ulp_mul_succ (e : Int) : (2 : ℚ) ^ (e - 52) * 2 ^ (53 : Int) = 2 ^ (e + 1) := by
  rw [← zpow_add₀ (by norm_num : (2 : ℚ) ≠ 0)]
  congr 1
  omega

theorem roundF64_of_pos {x : ℚ} (hx : 0 < x) :
    roundF64 x
      = ((roundHalfEven (x / 2 ^ (Int.log 2 x - 52)) : Int) : ℚ) * 2 ^ (Int.log 2 x - 52) := by
  unfold roundF64
  rw [if_neg (ne_of_gt hx), abs_of_pos hx]

/-- The scaled significand of a positive value lies between `2^52` and `2^53`. -/
theorem significand_bounds {x : ℚ} (hx : 0 < x) :
    (2 : ℚ) ^ (52 : Int) ≤ x / 2 ^ (Int.log 2 x - 52)
    ∧ x / 2 ^ (Int.log 2 x - 52) < 2 ^ (53 : Int) := by
  have hu : (0 : ℚ) < 2 ^ (Int.log 2 x - 52) := by positivity
  have h1 : ((2 : Nat) : ℚ) ^ Int.log 2 x ≤ x := Int.zpow_log_le_self (by norm_num) hx
  have h2 : x < ((2 : Nat) : ℚ) ^ (Int.log 2 x + 1) := Int.lt_zpow_succ_log_self (by norm_num) x
  rw [Nat.cast_ofNat] at h1 h2
  constructor
  · rw [le_div_iff₀ hu, mul_comm, ulp_mul]
    exact h1
  · rw [div_lt_iff₀ hu, mul_comm, ulp_mul_succ]
    exact h2

theorem roundF64_bounds {x : ℚ} (hx : 0 < x) :
    (2 : ℚ) ^ Int.log 2 x ≤ roundF64 x ∧ roundF64 x ≤ 2 ^ (Int.log 2 x + 1) := by
  have hu : (0 : ℚ) < 2 ^ (Int.log 2 x - 52) := by positivity
  obtain ⟨h1, h2⟩ := significand_bounds hx
  have h52 : ((2 : ℚ) ^ (52 : Int)) = (((2 ^ 52 : Int)) : ℚ) := by norm_num
  have h53 : ((2 : ℚ) ^ (53 : Int)) = (((2 ^ 53 : Int)) : ℚ) := by norm_num
  have hlo : (2 ^ 52 : Int) ≤ roundHalfEven (x / 2 ^ (Int.log 2 x - 52)) :=
    le_roundHalfEven (by rw [← h52]; exact h1)
  have hhi : roundHalfEven (x / 2 ^ (Int.log 2 x - 52)) ≤ (2 ^ 53 : Int) :=
    roundHalfEven_le (by rw [← h53]; exact le_of_lt h2)
  have hlo' : (2 : ℚ) ^ (52 : Int)
      ≤ ((roundHalfEven (x / 2 ^ (Int.log 2 x - 52)) : Int) : ℚ) := by
    rw [h52]; exact_mod_cast hlo
  have hhi' : ((roundHalfEven (x / 2 ^ (Int.log 2 x - 52)) : Int) : ℚ)
      ≤ (2 : ℚ) ^ (53 : Int) := by
    rw [h53]; exact_mod_cast hhi
  rw [roundF64_of_pos hx]
  constructor
  · rw [← ulp_mul (Int.log 2 x), mul_comm]
    exact mul_le_mul_of_nonneg_right hlo' (le_of_lt hu)
  · rw [← ulp_mul_succ (Int.log 2 x), mul_comm ((2 : ℚ) ^ (Int.log 2 x - 52))]
    exact mul_le_mul_of_nonneg_right hhi' (le_of_lt hu)

theorem roundF64_zero : roundF64 0 = 0 := by
  unfold roundF64
  rw [if_pos rfl]

theorem roundF64_pos {x : ℚ} (hx : 0 < x) : 0 < roundF64 x :=
  lt_of_lt_of_le (by positivity) (roundF64_bounds hx).1

theorem roundF64_nonneg {x : ℚ} (hx : 0 ≤ x) : 0 ≤ roundF64 x := by
  rcases lt_or_eq_of_le hx with h | h
  · exact le_of_lt (roundF64_pos h)
  · rw [← h, roundF64_zero]

/-- Rounding to float64 is monotone on the non-negative values. -/
theorem roundF64_mono {x y : ℚ} (hx : 0 ≤ x) (hxy : x ≤ y) : roundF64 x ≤ roundF64 y := by
  rcases lt_or_eq_of_le hx with hpos | h0
  · have hy : 0 < y := lt_of_lt_of_le hpos hxy
    have hlog : Int.log 2 x ≤ Int.log 2 y := Int.log_mono_right hpos hxy
    rcases lt_or_eq_of_le hlog with hlt | heq
    · have h1 := (roundF64_bounds hpos).2
      have h2 := (roundF64_bounds hy).1
      have h3 : (2 : ℚ) ^ (Int.log 2 x + 1) ≤ 2 ^ Int.log 2 y :=
        zpow_le_zpow_right₀ (by norm_num) (by omega)
      linarith
    · rw [roundF64_of_pos hpos, roundF64_of_pos hy, heq]
      have hu : (0 : ℚ) < 2 ^ (Int.log 2 y - 52) := by positivity
      apply mul_le_mul_of_nonneg_right _ (le_of_lt hu)
      have hm : x / 2 ^ (Int.log 2 y - 52) ≤ y / 2 ^ (Int.log 2 y - 52) :=
        div_le_div_of_nonneg_right hxy (le_of_lt hu)
      exact_mod_cast roundHalfEven_mono hm
  · rw [← h0, roundF64_zero]
    exact roundF64_nonneg (by linarith)

/-- The relative error of rounding to float64 is at most `2^-53`. -/
theorem roundF64_error {x : ℚ} (hx : 0 ≤ x) :
    x * (1 - 1 / 2 ^ 53) ≤ roundF64 x ∧ roundF64 x ≤ x * (1 + 1 / 2 ^ 53) := by
  rcases lt_or_eq_of_le hx with hpos | h0
  · have hu : (0 : ℚ) < 2 ^ (Int.log 2 x - 52) := by positivity
    have h1 : ((2 : Nat) : ℚ) ^ Int.log 2 x ≤ x := Int.zpow_log_le_self (by norm_num) hpos
    rw [Nat.cast_ofNat] at h1
    have ha := roundHalfEven_sub_le (x / 2 ^ (Int.log 2 x - 52))
    have hb := sub_roundHalfEven_le (x / 2 ^ (Int.log 2 x - 52))
    have hx' : x / 2 ^ (Int.log 2 x - 52) * 2 ^ (Int.log 2 x - 52) = x :=
      div_mul_cancel₀ x (ne_of_gt hu)
    have hhalf : (2 : ℚ) ^ (Int.log 2 x - 52) * (1 / 2) ≤ x * (1 / 2 ^ 53) := by
      have h2 : (2 : ℚ) ^ (Int.log 2 x - 52) = 2 ^ Int.log 2 x / 2 ^ (52 : Int) := by
        rw [eq_div_iff (by positivity), ulp_mul]
      rw [h2]
      have h3 : (2 : ℚ) ^ Int.log 2 x / 2 ^ (52 : Int) * (1 / 2)
          = 2 ^ Int.log 2 x * (1 / 2 ^ 53) := by
        norm_num
        ring
      rw [h3]
      exact mul_le_mul_of_nonneg_right h1 (by positivity)
    rw [roundF64_of_pos hpos]
    constructor
    · have := mul_le_mul_of_nonneg_right hb (le_of_lt hu)
      nlinarith
    · have := mul_le_mul_of_nonneg_right ha (le_of_lt hu)
      nlinarith
  · rw [← h0, roundF64_zero]
    simp

theorem roundF64_eq {x : ℚ} (e n : Int) (hx : 0 < x) (h1 : (2 : ℚ) ^ e ≤ x)
    (h2 : x < (2 : ℚ) ^ (e + 1)) (hn : |x / 2 ^ (e - 52) - (n : ℚ)| < 1 / 2) :
    roundF64 x = (n : ℚ) * 2 ^ (e - 52) := by
  have hb : 1 < 2 := by norm_num
  have hlog : Int.log 2 x = e := by
    have h3 : ((2 : Nat) : ℚ) ^ e ≤ x := by rw [Nat.cast_ofNat]; exact h1
    have h4 : x < ((2 : Nat) : ℚ) ^ (e + 1) := by rw [Nat.cast_ofNat]; exact h2
    have h5 := (Int.zpow_le_iff_le_log hb hx).1 h3
    have h6 := (Int.lt_zpow_iff_log_lt hb hx).1 h4
    omega
  rw [roundF64_of_pos hx, hlog, roundHalfEven_eq_of_abs_lt hn]

/-- The float64 luma of the colour (42, 14718, 55684), whose exact luma is 15000. -/
theorem gry_boundary (a : Nat) :
    gry { r := 42, g := 14718, b := 55684, a := a } = 8246337208320001 / 549755813888 := by
  have hA : roundF64 (299 / 1000 : ℚ) = (5386305154335113 / 18014398509481984 : ℚ) := by
    rw [roundF64_eq (-2) (5386305154335113) (by norm_num) (by norm_num) (by norm_num)
      (by rw [abs_lt]; constructor <;> norm_num)]
    norm_num
  have hB : roundF64 (587 / 1000 : ℚ) = (2643612981266481 / 4503599627370496 : ℚ) := by
    rw [roundF64_eq (-1) (5287225962532962) (by norm_num) (by norm_num) (by norm_num)
      (by rw [abs_lt]; constructor <;> norm_num)]
    norm_num
  have hC : roundF64 (57 / 500 : ℚ) = (8214565720323785 / 72057594037927936 : ℚ) := by
    rw [roundF64_eq (-4) (8214565720323785) (by norm_num) (by norm_num) (by norm_num)
      (by rw [abs_lt]; constructor <;> norm_num)]
    norm_num
  have h1 : roundF64 (113112408241037373 / 9007199254740992 : ℚ) = (1767381378766209 / 140737488355328 : ℚ) := by
    rw [roundF64_eq (3) (7069525515064836) (by norm_num) (by norm_num) (by norm_num)
      (by rw [abs_lt]; constructor <;> norm_num)]
    norm_num
  have h2 : roundF64 (19454347929140033679 / 2251799813685248 : ℚ) = (593699582798463 / 68719476736 : ℚ) := by
    rw [roundF64_eq (13) (4749596662387704) (by norm_num) (by norm_num) (by norm_num)
      (by rw [abs_lt]; constructor <;> norm_num)]
    norm_num
  have h3 : roundF64 (114354969392627410985 / 18014398509481984 : ℚ) = (3489836712421491 / 549755813888 : ℚ) := by
    rw [roundF64_eq (12) (6979673424842982) (by norm_num) (by norm_num) (by norm_num)
      (by rw [abs_lt]; constructor <;> norm_num)]
    norm_num
  have h4 : roundF64 (1217664126950018433 / 140737488355328 : ℚ) = (2378250247949255 / 274877906944 : ℚ) := by
    rw [roundF64_eq (13) (4756500495898510) (by norm_num) (by norm_num) (by norm_num)
      (by rw [abs_lt]; constructor <;> norm_num)]
    norm_num
  have h5 : roundF64 (8246337208320001 / 549755813888 : ℚ) = (8246337208320001 / 549755813888 : ℚ) := by
    rw [roundF64_eq (13) (8246337208320001) (by norm_num) (by norm_num) (by norm_num)
      (by rw [abs_lt]; constructor <;> norm_num)]
    norm_num
  have e1 : (0.299 : ℚ) = 299 / 1000 := by norm_num
  have e2 : (0.587 : ℚ) = 587 / 1000 := by norm_num
  have e3 : (0.114 : ℚ) = 57 / 500 := by norm_num
  unfold gry
  simp only [e1, e2, e3, hA, hB, hC]
  have m1 : (5386305154335113 / 18014398509481984 : ℚ) * ((42 : Nat) : ℚ)
      = (113112408241037373 / 9007199254740992 : ℚ) := by norm_num
  have m2 : (2643612981266481 / 4503599627370496 : ℚ) * ((14718 : Nat) : ℚ)
      = (19454347929140033679 / 2251799813685248 : ℚ) := by norm_num
  have m3 : (8214565720323785 / 72057594037927936 : ℚ) * ((55684 : Nat) : ℚ)
      = (114354969392627410985 / 18014398509481984 : ℚ) := by norm_num
  rw [m1, m2, m3, h1, h2, h3]
  have a1 : (1767381378766209 / 140737488355328 : ℚ) + (593699582798463 / 68719476736 : ℚ)
      = (1217664126950018433 / 140737488355328 : ℚ) := by norm_num
  rw [a1, h4]
  have a2 : (2378250247949255 / 274877906944 : ℚ) + (3489836712421491 / 549755813888 : ℚ)
      = (8246337208320001 / 549755813888 : ℚ) := by norm_num
  rw [a2, h5]

theorem near_refl (t : ℚ) : Near 0 t t := by
  unfold Near
  simp

theorem near_round {k : Nat} {t x : ℚ} (ht : 0 ≤ t) (h : Near k t x) :
    Near (k + 1) t (roundF64 x) := by
  obtain ⟨h1, h2⟩ := h
  have hlo : (0 : ℚ) ≤ 1 - 1 / 2 ^ 53 := by norm_num
  have hhi : (0 : ℚ) ≤ 1 + 1 / 2 ^ 53 := by norm_num
  have hx : 0 ≤ x := le_trans (mul_nonneg ht (pow_nonneg hlo k)) h1
  obtain ⟨e1, e2⟩ := roundF64_error hx
  constructor
  · rw [pow_succ, ← mul_assoc]
    exact le_trans (mul_le_mul_of_nonneg_right h1 hlo) e1
  · rw [pow_succ, ← mul_assoc]
    exact le_trans e2 (mul_le_mul_of_nonneg_right h2 hhi)

theorem near_mul {k : Nat} {t x : ℚ} (r : ℚ) (hr : 0 ≤ r) (h : Near k t x) :
    Near k (t * r) (x * r) := by
  obtain ⟨h1, h2⟩ := h
  constructor
  · have := mul_le_mul_of_nonneg_right h1 hr
    linarith
  · have := mul_le_mul_of_nonneg_right h2 hr
    linarith

theorem near_add {k : Nat} {s t x y : ℚ} (hx : Near k s x) (hy : Near k t y) :
    Near k (s + t) (x + y) := by
  obtain ⟨h1, h2⟩ := hx
  obtain ⟨h3, h4⟩ := hy
  constructor <;> linarith

theorem near_succ {k : Nat} {t x : ℚ} (ht : 0 ≤ t) (h : Near k t x) : Near (k + 1) t x := by
  obtain ⟨h1, h2⟩ := h
  have hlo : (0 : ℚ) ≤ 1 - 1 / 2 ^ 53 := by norm_num
  have hhi : (0 : ℚ) ≤ 1 + 1 / 2 ^ 53 := by norm_num
  have hp1 := mul_nonneg ht (pow_nonneg hlo k)
  have hp2 := mul_nonneg ht (pow_nonneg hhi k)
  constructor
  · rw [pow_succ, ← mul_assoc]
    have : t * (1 - 1 / 2 ^ 53) ^ k * (1 - 1 / 2 ^ 53) ≤ t * (1 - 1 / 2 ^ 53) ^ k * 1 :=
      mul_le_mul_of_nonneg_left (by norm_num) hp1
    linarith
  · rw [pow_succ, ← mul_assoc]
    have : t * (1 + 1 / 2 ^ 53) ^ k * 1 ≤ t * (1 + 1 / 2 ^ 53) ^ k * (1 + 1 / 2 ^ 53) :=
      mul_le_mul_of_nonneg_left (by norm_num) hp2
    linarith

theorem gry_near (c : Color) : Near 4 (exactLuma c) (gry c) := by
  have hr : (0 : ℚ) ≤ (c.r : ℚ) := Nat.cast_nonneg _
  have hg : (0 : ℚ) ≤ (c.g : ℚ) := Nat.cast_nonneg _
  have hb : (0 : ℚ) ≤ (c.b : ℚ) := Nat.cast_nonneg _
  have e1 : (0.299 : ℚ) = 299 / 1000 := by norm_num
  have e2 : (0.587 : ℚ) = 587 / 1000 := by norm_num
  have e3 : (0.114 : ℚ) = 114 / 1000 := by norm_num
  have p1 : Near 2 (299 / 1000 * (c.r : ℚ)) (roundF64 (roundF64 0.299 * (c.r : ℚ))) := by
    rw [e1]
    exact near_round (by positivity)
      (near_mul _ hr (near_round (by norm_num) (near_refl _)))
  have p2 : Near 2 (587 / 1000 * (c.g : ℚ)) (roundF64 (roundF64 0.587 * (c.g : ℚ))) := by
    rw [e2]
    exact near_round (by positivity)
      (near_mul _ hg (near_round (by norm_num) (near_refl _)))
  have p3 : Near 2 (114 / 1000 * (c.b : ℚ)) (roundF64 (roundF64 0.114 * (c.b : ℚ))) := by
    rw [e3]
    exact near_round (by positivity)
      (near_mul _ hb (near_round (by norm_num) (near_refl _)))
  have s1 := near_round (by positivity) (near_add p1 p2)
  have s2 := near_round (by positivity) (near_add s1 (near_succ (by positivity) p3))
  exact s2

theorem gry_gt_of_exact_gt (c : Color) (h : 299 * c.r + 587 * c.g + 114 * c.b > 15000000) :
    gry c > 15000 := by
  have hq : (15000001 : ℚ) ≤ 299 * (c.r : ℚ) + 587 * (c.g : ℚ) + 114 * (c.b : ℚ) := by
    exact_mod_cast h
  have hL : (15000001 : ℚ) / 1000 ≤ exactLuma c := by
    unfold exactLuma
    linarith
  have h1 := (gry_near c).1
  have hpow : (1 : ℚ) - 1 / 2 ^ 50 ≤ (1 - 1 / 2 ^ 53) ^ 4 := by norm_num
  have hnn : (0 : ℚ) ≤ exactLuma c := by linarith
  have h2 : exactLuma c * (1 - 1 / 2 ^ 50) ≤ exactLuma c * (1 - 1 / 2 ^ 53) ^ 4 :=
    mul_le_mul_of_nonneg_left hpow hnn
  have h3 : (15000001 : ℚ) / 1000 * (1 - 1 / 2 ^ 50) ≤ exactLuma c * (1 - 1 / 2 ^ 50) :=
    mul_le_mul_of_nonneg_right hL (by norm_num)
  have h4 : (15000 : ℚ) < 15000001 / 1000 * (1 - 1 / 2 ^ 50) := by norm_num
  linarith

theorem gry_lt_of_exact_lt (c : Color) (h : 299 * c.r + 587 * c.g + 114 * c.b < 15000000) :
    gry c < 15000 := by
  have hq : 299 * (c.r : ℚ) + 587 * (c.g : ℚ) + 114 * (c.b : ℚ) ≤ (14999999 : ℚ) := by
    have h' : 299 * c.r + 587 * c.g + 114 * c.b ≤ 14999999 := by omega
    exact_mod_cast h'
  have hL : exactLuma c ≤ (14999999 : ℚ) / 1000 := by
    unfold exactLuma
    linarith
  have hnn : (0 : ℚ) ≤ exactLuma c := by
    unfold exactLuma
    positivity
  have h1 := (gry_near c).2
  have hpow : (1 + 1 / 2 ^ 53 : ℚ) ^ 4 ≤ 1 + 1 / 2 ^ 50 := by norm_num
  have h2 : exactLuma c * (1 + 1 / 2 ^ 53) ^ 4 ≤ exactLuma c * (1 + 1 / 2 ^ 50) :=
    mul_le_mul_of_nonneg_left hpow hnn
  have h3 : exactLuma c * (1 + 1 / 2 ^ 50) ≤ (14999999 : ℚ) / 1000 * (1 + 1 / 2 ^ 50) :=
    mul_le_mul_of_nonneg_right hL (by norm_num)
  have h4 : (14999999 : ℚ) / 1000 * (1 + 1 / 2 ^ 50) < 15000 := by norm_num
  linarith

/-- The float64 luma is monotone in each channel. -/
theorem gry_mono (c d : Color) (hr : c.r ≤ d.r) (hg : c.g ≤ d.g) (hb : c.b ≤ d.b) :
    gry c ≤ gry d := by
  have hr' : (c.r : ℚ) ≤ (d.r : ℚ) := by exact_mod_cast hr
  have hg' : (c.g : ℚ) ≤ (d.g : ℚ) := by exact_mod_cast hg
  have hb' : (c.b : ℚ) ≤ (d.b : ℚ) := by exact_mod_cast hb
  have hcr : (0 : ℚ) ≤ (c.r : ℚ) := Nat.cast_nonneg _
  have hcg : (0 : ℚ) ≤ (c.g : ℚ) := Nat.cast_nonneg _
  have hcb : (0 : ℚ) ≤ (c.b : ℚ) := Nat.cast_nonneg _
  have k1 : (0 : ℚ) ≤ roundF64 0.299 := roundF64_nonneg (by norm_num)
  have k2 : (0 : ℚ) ≤ roundF64 0.587 := roundF64_nonneg (by norm_num)
  have k3 : (0 : ℚ) ≤ roundF64 0.114 := roundF64_nonneg (by norm_num)
  have p1 : roundF64 (roundF64 0.299 * (c.r : ℚ)) ≤ roundF64 (roundF64 0.299 * (d.r : ℚ)) :=
    roundF64_mono (mul_nonneg k1 hcr) (mul_le_mul_of_nonneg_left hr' k1)
  have p2 : roundF64 (roundF64 0.587 * (c.g : ℚ)) ≤ roundF64 (roundF64 0.587 * (d.g : ℚ)) :=
    roundF64_mono (mul_nonneg k2 hcg) (mul_le_mul_of_nonneg_left hg' k2)
  have p3 : roundF64 (roundF64 0.114 * (c.b : ℚ)) ≤ roundF64 (roundF64 0.114 * (d.b : ℚ)) :=
    roundF64_mono (mul_nonneg k3 hcb) (mul_le_mul_of_nonneg_left hb' k3)
  have n1 := roundF64_nonneg (mul_nonneg k1 hcr)
  have n2 := roundF64_nonneg (mul_nonneg k2 hcg)
  have n3 := roundF64_nonneg (mul_nonneg k3 hcb)
  have s1 : roundF64 (roundF64 (roundF64 0.299 * (c.r : ℚ)) + roundF64 (roundF64 0.587 * (c.g : ℚ)))
      ≤ roundF64 (roundF64 (roundF64 0.299 * (d.r : ℚ))
          + roundF64 (roundF64 0.587 * (d.g : ℚ))) :=
    roundF64_mono (add_nonneg n1 n2) (add_le_add p1 p2)
  have n4 := roundF64_nonneg (add_nonneg n1 n2)
  unfold gry
  exact roundF64_mono (add_nonneg n4 n3) (add_le_add s1 p3)

/-! ## Claims about getPixels -/

theorem foldl_append_singleton {α : Type} (f : Nat → α) (l : List Nat) :
    ∀ acc : List α, l.foldl (fun acc x => acc ++ [f x]) acc = acc ++ l.map f := by
  induction l with
  | nil => intro acc; simp
  | cons x xs ih => intro acc; simp [ih]

theorem pixelColumn_eq (img : Image) (x : Int) (height : Nat) :
    pixelColumn img x height
      = (List.range height).map (fun (y : Nat) => binaryVal (img.At x (y : Int))) := by
  unfold pixelColumn
  exact (foldl_append_singleton (fun (y : Nat) => binaryVal (img.At x (y : Int))) _ []).trans
    (List.nil_append _)

theorem getPixels_eq (img : Image) :
    (getPixels img).1
      = (List.range img.bounds.Max.X.toNat).map
          (fun (x : Nat) => pixelColumn img (x : Int) MaskHeight) := by
  unfold getPixels
  exact (foldl_append_singleton (fun (x : Nat) => pixelColumn img (x : Int) MaskHeight) _ []).trans
    (List.nil_append _)

theorem getPixels_entry (img : Image) (x y : Nat) (hx : (x : Int) < img.bounds.Max.X)
    (hy : y < MaskHeight) :
    (getPixels img).1[x]?.bind (fun column => column[y]?)
      = some (binaryVal (img.At (x : Int) (y : Int))) := by
  have hx1 : x < img.bounds.Max.X.toNat := by omega
  have h1 : (List.range img.bounds.Max.X.toNat)[x]? = some x := by
    rw [List.getElem?_eq_getElem (by simpa using hx1), List.getElem_range]
  have h2 : (List.range MaskHeight)[y]? = some y := by
    rw [List.getElem?_eq_getElem (by simpa using hy), List.getElem_range]
  rw [getPixels_eq, List.getElem?_map, h1]
  simp only [Option.map_some', Option.some_bind]
  rw [pixelColumn_eq, List.getElem?_map, h2]
  rfl

theorem getPixels_column (img : Image) (x : Nat) (hx : (x : Int) < img.bounds.Max.X) :
    (getPixels img).1[x]? = some (pixelColumn img (x : Int) MaskHeight) := by
  have hx1 : x < img.bounds.Max.X.toNat := by omega
  have h1 : (List.range img.bounds.Max.X.toNat)[x]? = some x := by
    rw [List.getElem?_eq_getElem (by simpa using hx1), List.getElem_range]
  rw [getPixels_eq, List.getElem?_map, h1]
  rfl

theorem pixelColumn_const (img : Image) (x : Int) (height : Nat) (c : Color)
    (hc : ∀ y : Nat, y < height → img.At x (y : Int) = c) :
    pixelColumn img x height = List.replicate height (binaryVal c) := by
  rw [pixelColumn_eq]
  apply List.ext_getElem
  · simp
  · intro i h1 h2
    simp only [List.getElem_map, List.getElem_range, List.getElem_replicate]
    rw [hc i (by simpa using h1)]

theorem uniformImage_At (b : Rectangle) (c : Color) (x y : Int) :
    (uniformImage b c).At x y
      = if (Point.mk x y).In b then c else { r := 0, g := 0, b := 0, a := 0 } := rfl

theorem binaryVal_of_exact_gt (c : Color)
    (h : 299 * c.r + 587 * c.g + 114 * c.b > 15000000) : binaryVal c = 1 := by
  unfold binaryVal
  rw [if_pos (gry_gt_of_exact_gt c h)]

theorem binaryVal_of_exact_lt (c : Color)
    (h : 299 * c.r + 587 * c.g + 114 * c.b < 15000000) : binaryVal c = 0 := by
  unfold binaryVal
  rw [if_neg (not_lt.2 (le_of_lt (gry_lt_of_exact_lt c h)))]

theorem binaryVal_boundary (a : Nat) :
    binaryVal { r := 42, g := 14718, b := 55684, a := a } = 1 := by
  unfold binaryVal
  rw [gry_boundary]
  norm_num

/-- C5 (as amended): for every pixel source and every position `(x, y)` with
    `0 <= x < width` (the `width` of getPixels, `bounds.Max.X`) and `0 <= y < MaskHeight`,
    entry `[x][y]` of the bitmap of getPixels is 1 exactly when the `float64` value of
    `0.299*R + 0.587*G + 0.114*B`, with the constants, the products and the sums each
    rounded to `float64`, exceeds 15000 for the channel values of pixel `(x, y)`, and is 0
    otherwise. The entry is 1 whenever `299*R + 587*G + 114*B > 15000000` and 0 whenever
    `299*R + 587*G + 114*B < 15000000`. -/
theorem getPixels_threshold (img : Image) (x y : Nat) (hx : (x : Int) < img.bounds.Max.X)
    (hy : y < MaskHeight) :
    ∃ e : Nat, (getPixels img).1[x]?.bind (fun column => column[y]?) = some e
      ∧ (e = 1 ↔
          roundF64
            (roundF64 (roundF64 (roundF64 0.299 * ((img.At x y).r : ℚ))
                + roundF64 (roundF64 0.587 * ((img.At x y).g : ℚ)))
              + roundF64 (roundF64 0.114 * ((img.At x y).b : ℚ))) > 15000)
      ∧ (e ≠ 1 → e = 0)
      ∧ (299 * (img.At x y).r + 587 * (img.At x y).g + 114 * (img.At x y).b > 15000000
          → e = 1)
      ∧ (299 * (img.At x y).r + 587 * (img.At x y).g + 114 * (img.At x y).b < 15000000
          → e = 0) := by
  refine ⟨binaryVal (img.At (x : Int) (y : Int)), getPixels_entry img x y hx hy, ?_, ?_,
    binaryVal_of_exact_gt _, binaryVal_of_exact_lt _⟩
  · show binaryVal (img.At (x : Int) (y : Int)) = 1 ↔ gry (img.At (x : Int) (y : Int)) > 15000
    unfold binaryVal
    split_ifs with h
    · exact ⟨fun _ => h, fun _ => rfl⟩
    · exact ⟨fun h1 => absurd h1 (by decide), fun h1 => absurd h1 h⟩
  · unfold binaryVal
    split_ifs with h
    · intro h1; exact absurd rfl h1
    · intro _; rfl

/-- Witness for C5: a 2 x 2 image of pure 16-bit red, position (1, 1). -/
theorem getPixels_threshold_witness :
    ∃ e : Nat, (getPixels (uniformImage (Rect 0 0 2 2) ⟨65535, 0, 0, 65535⟩)).1[1]?.bind
        (fun column => column[1]?) = some e
      ∧ (e = 1 ↔
          roundF64
            (roundF64 (roundF64 (roundF64 0.299
                  * (((uniformImage (Rect 0 0 2 2) ⟨65535, 0, 0, 65535⟩).At
                      (1 : Nat) (1 : Nat)).r : ℚ))
                + roundF64 (roundF64 0.587
                  * (((uniformImage (Rect 0 0 2 2) ⟨65535, 0, 0, 65535⟩).At
                      (1 : Nat) (1 : Nat)).g : ℚ)))
              + roundF64 (roundF64 0.114
                  * (((uniformImage (Rect 0 0 2 2) ⟨65535, 0, 0, 65535⟩).At
                      (1 : Nat) (1 : Nat)).b : ℚ))) > 15000)
      ∧ (e ≠ 1 → e = 0)
      ∧ (299 * ((uniformImage (Rect 0 0 2 2) ⟨65535, 0, 0, 65535⟩).At (1 : Nat) (1 : Nat)).r
          + 587 * ((uniformImage (Rect 0 0 2 2) ⟨65535, 0, 0, 65535⟩).At (1 : Nat) (1 : Nat)).g
          + 114 * ((uniformImage (Rect 0 0 2 2) ⟨65535, 0, 0, 65535⟩).At (1 : Nat) (1 : Nat)).b
          > 15000000 → e = 1)
      ∧ (299 * ((uniformImage (Rect 0 0 2 2) ⟨65535, 0, 0, 65535⟩).At (1 : Nat) (1 : Nat)).r
          + 587 * ((uniformImage (Rect 0 0 2 2) ⟨65535, 0, 0, 65535⟩).At (1 : Nat) (1 : Nat)).g
          + 114 * ((uniformImage (Rect 0 0 2 2) ⟨65535, 0, 0, 65535⟩).At (1 : Nat) (1 : Nat)).b
          < 15000000 → e = 0) :=
  getPixels_threshold (uniformImage (Rect 0 0 2 2) ⟨65535, 0, 0, 65535⟩) 1 1
    (by decide) (by decide)

/-- C5 (counterexample): a 1 x 12 image of the colour `(42, 14718, 55684)`. The exact
    luma of the pixel at `(0, 0)` is 15000, which is not above the threshold
    (`299*42 + 587*14718 + 114*55684 = 15000000`), but the `float64` sum is
    `8246337208320001 / 2^39`, just above 15000, and entry `[0][0]` of the bitmap of
    getPixels is 1. -/
theorem getPixels_threshold_boundary :
    (uniformImage (Rect 0 0 1 12) ⟨42, 14718, 55684, 65535⟩).At 0 0
        = ⟨42, 14718, 55684, 65535⟩
    ∧ (getPixels (uniformImage (Rect 0 0 1 12) ⟨42, 14718, 55684, 65535⟩)).1[0]?.bind
        (fun column => column[0]?) = some 1
    ∧ (0.299 : ℚ) * 42 + 0.587 * 14718 + 0.114 * 55684 = 15000
    ∧ ¬ (299 * 42 + 587 * 14718 + 114 * 55684 > 15000000)
    ∧ gry ⟨42, 14718, 55684, 65535⟩ = 8246337208320001 / 2 ^ 39 := by
  have hAt : (uniformImage (Rect 0 0 1 12) ⟨42, 14718, 55684, 65535⟩).At
      ((0 : Nat) : Int) ((0 : Nat) : Int) = ⟨42, 14718, 55684, 65535⟩ := by decide
  refine ⟨by decide, ?_, by norm_num, by norm_num, ?_⟩
  · rw [getPixels_entry _ 0 0 (by decide) (by decide), hAt, binaryVal_boundary]
  · rw [gry_boundary]
    norm_num

/-- C6: the thresholding of getPixels is monotone: when no channel of `c` exceeds the
    same channel of `d`, a bit 1 computed for `c` gives a bit 1 for `d`; equivalently a
    bit 0 computed for `d` gives a bit 0 for `c`. The luma is the rounded `float64` sum:
    every rounding is monotone, so the sum is. -/
theorem binaryVal_mono (c d : Color) (hr : c.r ≤ d.r) (hg : c.g ≤ d.g) (hb : c.b ≤ d.b) :
    (binaryVal c = 1 → binaryVal d = 1) ∧ (binaryVal d = 0 → binaryVal c = 0) := by
  have key : gry c > 15000 → gry d > 15000 :=
    fun h1 => lt_of_lt_of_le h1 (gry_mono c d hr hg hb)
  unfold binaryVal
  constructor
  · intro h
    split_ifs at h with h1
    rw [if_pos (key h1)]
  · intro h
    split_ifs at h with h1
    rw [if_neg (fun hc => h1 (key hc))]

/-- Witness for C6: a grey pixel above the threshold and a brighter one. -/
theorem binaryVal_mono_witness :
    binaryVal ⟨20000, 20000, 20000, 65535⟩ = 1 ∧ binaryVal ⟨20000, 30000, 65535, 65535⟩ = 1 :=
  ⟨binaryVal_of_exact_gt _ (by decide),
    (binaryVal_mono ⟨20000, 20000, 20000, 65535⟩ ⟨20000, 30000, 65535, 65535⟩
      (by decide) (by decide) (by decide)).1 (binaryVal_of_exact_gt _ (by decide))⟩

/-! ## Claims about the colour streams -/

theorem foldl_append_const {α : Type} (t : List α) (l : List Nat) :
    ∀ acc : List α, l.foldl (fun results _ => results ++ t) acc
      = acc ++ (List.replicate l.length t).flatten := by
  induction l with
  | nil => intro acc; simp
  | cons x xs ih =>
    intro acc
    rw [List.foldl_cons, ih, List.length_cons, List.replicate_succ, List.flatten_cons,
      List.append_assoc]

theorem EncodeColorArrayForMask_eq (columns : Int) :
    EncodeColorArrayForMask columns
      = (List.replicate columns.toNat [0xFF, 0xFF, 0xFF]).flatten := by
  unfold EncodeColorArrayForMask
  rw [foldl_append_const, List.length_range, List.nil_append]

/-- C7: for every column count `N`, EncodeColorArrayForMask(N) is `N` repetitions of the
    triplet (0xFF, 0xFF, 0xFF): for `N >= 0` its length is `3N`, every byte is 0xFF, for
    `N = 3` it is nine bytes FF, and for `N <= 0` it is empty. -/
theorem EncodeColorArrayForMask_white (N : Int) :
    EncodeColorArrayForMask N = (List.replicate N.toNat [0xFF, 0xFF, 0xFF]).flatten
    ∧ (0 ≤ N → ((EncodeColorArrayForMask N).length : Int) = 3 * N)
    ∧ (∀ b ∈ EncodeColorArrayForMask N, b = 0xFF)
    ∧ EncodeColorArrayForMask 3 = [0xFF, 0xFF, 0xFF, 0xFF, 0xFF, 0xFF, 0xFF, 0xFF, 0xFF]
    ∧ (N ≤ 0 → EncodeColorArrayForMask N = []) := by
  refine ⟨EncodeColorArrayForMask_eq N, ?_, ?_, by decide, ?_⟩
  · intro hN
    rw [EncodeColorArrayForMask_eq, List.length_flatten]
    simp only [List.map_replicate, List.length_cons, List.length_nil, List.sum_replicate,
      smul_eq_mul]
    omega
  · intro b hb
    rw [EncodeColorArrayForMask_eq, List.mem_flatten] at hb
    obtain ⟨t, ht, hbt⟩ := hb
    rw [List.eq_of_mem_replicate ht] at hbt
    simp only [List.mem_cons, List.mem_singleton, List.not_mem_nil, or_false, or_self] at hbt
    exact hbt
  · intro hN
    rw [EncodeColorArrayForMask_eq, Int.toNat_of_nonpos hN]
    rfl

/-- Witness for C7: two columns, and a negative column count. -/
theorem EncodeColorArrayForMask_white_witness :
    ((EncodeColorArrayForMask 2).length : Int) = 3 * 2 ∧ EncodeColorArrayForMask (-2) = [] :=
  ⟨(EncodeColorArrayForMask_white 2).2.1 (by decide),
    (EncodeColorArrayForMask_white (-2)).2.2.2.2 (by decide)⟩

theorem foldl_append_flatten {α : Type} (f : Nat → List α) (l : List Nat) :
    ∀ acc : List α, l.foldl (fun results x => results ++ f x) acc
      = acc ++ (l.map f).flatten := by
  induction l with
  | nil => intro acc; simp
  | cons x xs ih => intro acc; simp [ih]

theorem foldl_foldl_append_flatten {α : Type} (f : Nat → Nat → List α) (m : Nat)
    (l : List Nat) :
    ∀ acc : List α,
      l.foldl (fun results x => (List.range m).foldl (fun results y => results ++ f x y) results)
          acc
        = acc ++ (l.map (fun x => ((List.range m).map (f x)).flatten)).flatten := by
  induction l with
  | nil => intro acc; simp
  | cons x xs ih =>
    intro acc
    rw [List.foldl_cons, ih, foldl_append_flatten]
    simp

theorem flatten_map_range_length {α : Type} (f : Nat → List α) (m : Nat)
    (hlen : ∀ k, (f k).length = m) (n : Nat) :
    ((List.range n).map f).flatten.length = n * m := by
  induction n with
  | zero => simp
  | succ n ih =>
    rw [List.range_succ, List.map_append, List.flatten_append, List.length_append, ih]
    simp only [List.map_cons, List.map_nil, List.flatten_cons, List.flatten_nil,
      List.append_nil, hlen]
    rw [Nat.succ_mul]

theorem flatten_map_range_get {α : Type} (f : Nat → List α) (m : Nat)
    (hlen : ∀ k, (f k).length = m) (n : Nat) :
    ∀ k r, k < n → r < m → ((List.range n).map f).flatten[k * m + r]? = (f k)[r]? := by
  induction n with
  | zero => intro k r hk; omega
  | succ n ih =>
    intro k r hk hr
    rw [List.range_succ, List.map_append, List.flatten_append]
    have hl := flatten_map_range_length f m hlen n
    simp only [List.map_cons, List.map_nil, List.flatten_cons, List.flatten_nil,
      List.append_nil]
    by_cases hkn : k < n
    · have hlt : k * m + r < ((List.range n).map f).flatten.length := by
        rw [hl]
        calc k * m + r < k * m + m := by omega
          _ = (k + 1) * m := by rw [Nat.succ_mul]
          _ ≤ n * m := Nat.mul_le_mul_right m hkn
      rw [List.getElem?_append_left hlt]
      exact ih k r hkn hr
    · have hk' : k = n := by omega
      subst hk'
      rw [List.getElem?_append_right (by rw [hl]; omega), hl, Nat.add_sub_cancel_left]

theorem EncodeColorArrayFromImageForMask_eq (img : Image) :
    EncodeColorArrayFromImageForMask img
      = ((List.range img.bounds.Dx.toNat).map (columnTriplets img)).flatten := by
  unfold EncodeColorArrayFromImageForMask getImageSize
  exact (foldl_foldl_append_flatten
    (fun (x y : Nat) => colorTriplet (img.At (x : Int) (y : Int))) MaskHeight _ []).trans
    (List.nil_append _)

theorem columnTriplets_length (img : Image) (x : Nat) :
    (columnTriplets img x).length = MaskHeight * 3 := by
  unfold columnTriplets
  exact flatten_map_range_length
    (fun (y : Nat) => colorTriplet (img.At (x : Int) (y : Int))) 3 (fun _ => rfl) MaskHeight

theorem EncodeColorArrayFromImageForMask_get (img : Image) (x y c : Nat)
    (hx : x < img.bounds.Dx.toNat) (hy : y < MaskHeight) (hc : c < 3) :
    (EncodeColorArrayFromImageForMask img)[3 * (x * MaskHeight + y) + c]?
      = (colorTriplet (img.At (x : Int) (y : Int)))[c]? := by
  rw [EncodeColorArrayFromImageForMask_eq,
    show 3 * (x * MaskHeight + y) + c = x * (MaskHeight * 3) + (y * 3 + c) by ring,
    flatten_map_range_get (columnTriplets img) (MaskHeight * 3) (columnTriplets_length img)
      _ x (y * 3 + c) hx (by omega)]
  unfold columnTriplets
  exact flatten_map_range_get
    (fun (y : Nat) => colorTriplet (img.At (x : Int) (y : Int))) 3 (fun _ => rfl)
    MaskHeight y c hy hc

theorem toByte_shift (v : Nat) (hv : v ≤ 65535) : toByte (v >>> 8) = v / 256 := by
  unfold toByte
  rw [Nat.shiftRight_eq_div_pow]
  omega

/-- C8: for every image of width `W`, EncodeColorArrayFromImageForMask returns
    `3 * W * MaskHeight` bytes in column-major order: for every column `x < W` and row
    `y < MaskHeight`, the bytes at indices `3*(x*MaskHeight + y) + c` for `c = 0, 1, 2`
    are `floor(v / 256)` for the 16-bit samples `v` of the channels R, G, B of pixel
    `(x, y)`; a sample of 65535 gives byte 255 and a sample of 256 gives byte 1. -/
theorem EncodeColorArrayFromImageForMask_bytes (img : Image) :
    (EncodeColorArrayFromImageForMask img).length = 3 * img.bounds.Dx.toNat * MaskHeight
    ∧ (∀ x y : Nat, x < img.bounds.Dx.toNat → y < MaskHeight →
        ((img.At x y).r ≤ 65535 →
          (EncodeColorArrayFromImageForMask img)[3 * (x * MaskHeight + y)]?
            = some ((img.At x y).r / 256))
        ∧ ((img.At x y).g ≤ 65535 →
          (EncodeColorArrayFromImageForMask img)[3 * (x * MaskHeight + y) + 1]?
            = some ((img.At x y).g / 256))
        ∧ ((img.At x y).b ≤ 65535 →
          (EncodeColorArrayFromImageForMask img)[3 * (x * MaskHeight + y) + 2]?
            = some ((img.At x y).b / 256)))
    ∧ colorTriplet ⟨65535, 256, 0, 65535⟩ = [255, 1, 0] := by
  refine ⟨?_, ?_, by decide⟩
  · rw [EncodeColorArrayFromImageForMask_eq,
      flatten_map_range_length (columnTriplets img) (MaskHeight * 3)
        (columnTriplets_length img)]
    ring
  · intro x y hx hy
    refine ⟨fun hv => ?_, fun hv => ?_, fun hv => ?_⟩
    · have h := EncodeColorArrayFromImageForMask_get img x y 0 hx hy (by omega)
      rw [Nat.add_zero] at h
      rw [h, ← toByte_shift _ hv]
      rfl
    · rw [EncodeColorArrayFromImageForMask_get img x y 1 hx hy (by omega), ← toByte_shift _ hv]
      rfl
    · rw [EncodeColorArrayFromImageForMask_get img x y 2 hx hy (by omega), ← toByte_shift _ hv]
      rfl

/-- Witness for C8: a 2 x 12 image of one colour, pixel (1, 11). -/
theorem EncodeColorArrayFromImageForMask_bytes_witness :
    (EncodeColorArrayFromImageForMask
        (uniformImage (Rect 0 0 2 12) ⟨65535, 256, 4660, 65535⟩))[3 * (1 * MaskHeight + 11)]?
      = some (((uniformImage (Rect 0 0 2 12) ⟨65535, 256, 4660, 65535⟩).At
          (1 : Nat) (11 : Nat)).r / 256) :=
  ((EncodeColorArrayFromImageForMask_bytes
      (uniformImage (Rect 0 0 2 12) ⟨65535, 256, 4660, 65535⟩)).2.1 1 11
    (by decide) (by decide)).1 (by decide)

/-! ## Claims about the crop step -/

theorem maskAspect_eq : maskAspect = 40 / 12 := by
  unfold maskAspect MaskWidth MaskHeight
  norm_num

theorem aspect_gt_iff (w h : Int) (hh : 0 < h) :
    (w : ℚ) / (h : ℚ) > maskAspect ↔ 12 * w > 40 * h := by
  have hq : (0 : ℚ) < (h : ℚ) := by exact_mod_cast hh
  rw [maskAspect_eq, gt_iff_lt, lt_div_iff₀ hq]
  constructor
  · intro h1
    have h2 : (40 : ℚ) * (h : ℚ) < 12 * (w : ℚ) := by linarith
    exact_mod_cast h2
  · intro h1
    have h2 : (40 : ℚ) * (h : ℚ) < 12 * (w : ℚ) := by exact_mod_cast h1
    linarith

theorem aspect_lt_iff (w h : Int) (hh : 0 < h) :
    (w : ℚ) / (h : ℚ) < maskAspect ↔ 12 * w < 40 * h := by
  have hq : (0 : ℚ) < (h : ℚ) := by exact_mod_cast hh
  rw [maskAspect_eq, div_lt_iff₀ hq]
  constructor
  · intro h1
    have h2 : (12 : ℚ) * (w : ℚ) < 40 * (h : ℚ) := by linarith
    exact_mod_cast h2
  · intro h1
    have h2 : (12 : ℚ) * (w : ℚ) < 40 * (h : ℚ) := by exact_mod_cast h1
    linarith

theorem floor_mul_aspect (h : Int) : ⌊(h : ℚ) * (40 / 12)⌋ = 40 * h / 12 := by
  have h1 : (h : ℚ) * (40 / 12) = (((40 * h : Int) : ℚ)) / (((12 : Nat) : ℚ)) := by
    push_cast
    ring
  rw [h1, Rat.floor_intCast_div_natCast]
  rfl

theorem floor_div_aspect (w : Int) : ⌊(w : ℚ) / (40 / 12)⌋ = 12 * w / 40 := by
  have h1 : (w : ℚ) / (40 / 12) = (((12 * w : Int) : ℚ)) / (((40 : Nat) : ℚ)) := by
    push_cast
    ring
  rw [h1, Rat.floor_intCast_div_natCast]
  rfl

theorem truncToInt_mul_maskAspect (h : Int) (hh : 0 ≤ h) :
    truncToInt ((h : ℚ) * maskAspect) = 40 * h / 12 := by
  have hq : (0 : ℚ) ≤ (h : ℚ) := by exact_mod_cast hh
  unfold truncToInt
  rw [maskAspect_eq, if_pos (mul_nonneg hq (by norm_num)), floor_mul_aspect]

theorem truncToInt_div_maskAspect (w : Int) (hw : 0 ≤ w) :
    truncToInt ((w : ℚ) / maskAspect) = 12 * w / 40 := by
  have hq : (0 : ℚ) ≤ (w : ℚ) := by exact_mod_cast hw
  unfold truncToInt
  rw [maskAspect_eq, if_pos (div_nonneg hq (by norm_num)), floor_div_aspect]

/-- The crop step on integers, for a non-negative width and a positive height. -/
theorem cropArgs_of_pos (w h : Int) (hw : 0 ≤ w) (hh : 0 < h) :
    cropArgs w h
      = if 12 * w > 40 * h then
          some { width := 40 * h / 12, height := h, x := (w - 40 * h / 12) / 2, y := 0 }
        else if 12 * w < 40 * h then
          some { width := w, height := 12 * w / 40, x := 0, y := (h - 12 * w / 40) / 2 }
        else none := by
  have hne : h ≠ 0 := by omega
  unfold cropArgs F64.divInt
  simp only [if_pos hne, F64.gt, F64.lt, decide_eq_true_eq]
  rw [truncToInt_mul_maskAspect h (by omega), truncToInt_div_maskAspect w hw]
  by_cases h1 : 12 * w > 40 * h
  · rw [if_pos ((aspect_gt_iff w h hh).2 h1), if_pos h1,
      Int.tdiv_eq_ediv (by omega) (by omega)]
  · rw [if_neg (fun hc => h1 ((aspect_gt_iff w h hh).1 hc)), if_neg h1]
    by_cases h2 : 12 * w < 40 * h
    · rw [if_pos ((aspect_lt_iff w h hh).2 h2), if_pos h2,
        Int.tdiv_eq_ediv (by omega) (by omega)]
    · rw [if_neg (fun hc => h2 ((aspect_lt_iff w h hh).1 hc)), if_neg h2]

/-- C9 (as amended): for every image with width `w` and height `h > 0` whose aspect ratio
    `w/h` is greater than `MaskWidth/MaskHeight` (40/12), the crop step keeps the full
    height and crops the width to `h * 40/12` truncated to an integer (its floor, not the
    nearest integer), taken at `x = (w - cropped_width) / 2` and `y = 0`. -/
theorem cropArgs_wider (w h : Int) (hh : 0 < h) (hasp : (w : ℚ) / (h : ℚ) > 40 / 12) :
    cropArgs w h
        = some { width := ⌊(h : ℚ) * (40 / 12)⌋, height := h,
                 x := (w - ⌊(h : ℚ) * (40 / 12)⌋) / 2, y := 0 }
    ∧ ⌊(h : ℚ) * (40 / 12)⌋ = 40 * h / 12
    ∧ 0 ≤ w - ⌊(h : ℚ) * (40 / 12)⌋ := by
  rw [← maskAspect_eq, aspect_gt_iff w h hh] at hasp
  rw [floor_mul_aspect, cropArgs_of_pos w h (by omega) hh, if_pos hasp]
  exact ⟨rfl, rfl, by omega⟩

/-- Witness for C9: a 10 x 2 image is cropped to width 6 at x = 2. -/
theorem cropArgs_wider_witness :
    cropArgs 10 2
        = some { width := ⌊((2 : Int) : ℚ) * (40 / 12)⌋, height := 2,
                 x := (10 - ⌊((2 : Int) : ℚ) * (40 / 12)⌋) / 2, y := 0 }
    ∧ ⌊((2 : Int) : ℚ) * (40 / 12)⌋ = 40 * 2 / 12
    ∧ 0 ≤ 10 - ⌊((2 : Int) : ℚ) * (40 / 12)⌋ :=
  cropArgs_wider 10 2 (by decide) (by norm_num)

/-- C9 (counterexample): a 10 x 2 image is wider than 40/12; the nearest integer to
    `2 * 40/12` is 7, but the crop step crops the width to 6 (at x = 2, y = 0). -/
theorem cropArgs_wider_not_rounded :
    ((10 : Int) : ℚ) / ((2 : Int) : ℚ) > 40 / 12
    ∧ cropArgs 10 2 = some { width := 6, height := 2, x := 2, y := 0 }
    ∧ round (((2 : Int) : ℚ) * (40 / 12)) = 7 := by
  refine ⟨by norm_num, by decide!, ?_⟩
  rw [round_eq, Int.floor_eq_iff]
  norm_num

theorem Intersect_Dx_le (r b : Rectangle) (hb : 0 ≤ b.Dx) : (r.Intersect b).Dx ≤ b.Dx := by
  unfold Rectangle.Intersect Rectangle.Empty Rectangle.Dx ZR at *
  simp only
  split_ifs <;> simp only [] <;> omega

theorem Intersect_Dy_le (r b : Rectangle) (hb : 0 ≤ b.Dy) : (r.Intersect b).Dy ≤ b.Dy := by
  unfold Rectangle.Intersect Rectangle.Empty Rectangle.Dy ZR at *
  simp only
  split_ifs <;> simp only [] <;> omega

/-- Cropping an image whose bounds are `(0,0)-(w,h)` to a non-empty rectangle inside
    them gives an image of exactly the requested size. -/
theorem cropImage_size_inside (img : Image) (w h cw ch x y : Int)
    (hb : img.bounds = { Min := { X := 0, Y := 0 }, Max := { X := w, Y := h } })
    (hcw : 0 < cw) (hch : 0 < ch) (hx : 0 ≤ x) (hy : 0 ≤ y)
    (hxw : x + cw ≤ w) (hyh : y + ch ≤ h) :
    getImageSize (cropImage img cw ch x y).1 = (cw, ch) := by
  unfold getImageSize cropImage Image.SubImage Rectangle.Intersect Rectangle.Empty
    Rectangle.Dx Rectangle.Dy Rect ZR
  rw [hb]
  simp only [gt_iff_lt, ge_iff_le, Bool.or_eq_true, decide_eq_true_eq]
  split_ifs <;> simp only [Prod.mk.injEq] <;> omega

/-- Cropping an image whose bounds are `(0,0)-(w,h)` to a rectangle of height 0 gives
    the empty image. -/
theorem cropImage_size_flat (img : Image) (w h cw x y : Int)
    (hb : img.bounds = { Min := { X := 0, Y := 0 }, Max := { X := w, Y := h } }) :
    getImageSize (cropImage img cw 0 x y).1 = (0, 0) := by
  unfold getImageSize cropImage Image.SubImage Rectangle.Intersect Rectangle.Empty
    Rectangle.Dx Rectangle.Dy Rect ZR
  rw [hb]
  simp only [gt_iff_lt, ge_iff_le, Bool.or_eq_true, decide_eq_true_eq]
  split_ifs <;> simp only [Prod.mk.injEq] <;> omega

theorem prepareImageForMask_crop_le (img : Image) (hw : 0 < img.bounds.Dx)
    (hh : 0 < img.bounds.Dy) :
    (getImageSize (prepareImageForMask_crop img)).1 ≤ img.bounds.Dx
    ∧ (getImageSize (prepareImageForMask_crop img)).2 ≤ img.bounds.Dy := by
  unfold prepareImageForMask_crop
  simp only [getImageSize]
  cases cropArgs img.bounds.Dx img.bounds.Dy with
  | none => exact ⟨le_refl _, le_refl _⟩
  | some args =>
    exact ⟨Intersect_Dx_le _ _ (by omega), Intersect_Dy_le _ _ (by omega)⟩

theorem prepareImageForMask_crop_some (img : Image) (args : CropArgs)
    (h : cropArgs img.bounds.Dx img.bounds.Dy = some args) :
    prepareImageForMask_crop img = (cropImage img args.width args.height args.x args.y).1 := by
  unfold prepareImageForMask_crop
  simp only [getImageSize, h]

theorem prepareImageForMask_crop_none (img : Image)
    (h : cropArgs img.bounds.Dx img.bounds.Dy = none) :
    prepareImageForMask_crop img = img := by
  unfold prepareImageForMask_crop
  simp only [getImageSize, h]

theorem bounds_of_origin (img : Image) (hmin : img.bounds.Min = { X := 0, Y := 0 }) :
    img.bounds
      = { Min := { X := 0, Y := 0 }, Max := { X := img.bounds.Dx, Y := img.bounds.Dy } } := by
  obtain ⟨⟨⟨x0, y0⟩, ⟨x1, y1⟩⟩, pix, outside⟩ := img
  simp only [Point.mk.injEq] at hmin
  obtain ⟨hx, hy⟩ := hmin
  subst hx hy
  simp [Rectangle.Dx, Rectangle.Dy]

/-- C10 (as amended): for every source image with positive width `w` and height `h`, the
    crop step never enlarges either axis; when the bounds start at the origin, the
    dimensions `(w', h')` after the crop step match the target aspect ratio up to the
    truncation to whole pixels. Wider than 40/12: `w' = floor(40h/12)`, `h' = h`, so
    `12 w' <= 40 h' < 12 (w' + 1)`. Taller: `h' = floor(12w/40)`, with `w' = w` when
    `h' > 0` and the empty image when `h' = 0`, so `40 h' <= 12 w' < 40 (h' + 1)`.
    Equal: the image is unchanged. -/
theorem prepareImageForMask_crop_size (img : Image) (hw : 0 < img.bounds.Dx)
    (hh : 0 < img.bounds.Dy) :
    ∃ w' h' : Int, getImageSize (prepareImageForMask_crop img) = (w', h')
      ∧ w' ≤ img.bounds.Dx ∧ h' ≤ img.bounds.Dy
      ∧ (img.bounds.Min = { X := 0, Y := 0 } →
          (12 * img.bounds.Dx > 40 * img.bounds.Dy →
            w' = 40 * img.bounds.Dy / 12 ∧ h' = img.bounds.Dy
            ∧ 12 * w' ≤ 40 * h' ∧ 40 * h' < 12 * (w' + 1))
          ∧ (12 * img.bounds.Dx < 40 * img.bounds.Dy →
            h' = 12 * img.bounds.Dx / 40 ∧ (0 < h' → w' = img.bounds.Dx) ∧ (h' = 0 → w' = 0)
            ∧ 40 * h' ≤ 12 * w' ∧ 12 * w' < 40 * (h' + 1))
          ∧ (12 * img.bounds.Dx = 40 * img.bounds.Dy →
            w' = img.bounds.Dx ∧ h' = img.bounds.Dy)) := by
  have hle := prepareImageForMask_crop_le img hw hh
  refine ⟨(getImageSize (prepareImageForMask_crop img)).1,
    (getImageSize (prepareImageForMask_crop img)).2, rfl, hle.1, hle.2, ?_⟩
  intro hmin
  have hb := bounds_of_origin img hmin
  have hargs := cropArgs_of_pos img.bounds.Dx img.bounds.Dy (le_of_lt hw) hh
  refine ⟨fun h1 => ?_, fun h2 => ?_, fun h3 => ?_⟩
  · rw [if_pos h1] at hargs
    rw [prepareImageForMask_crop_some img _ hargs]
    simp only
    rw [cropImage_size_inside img _ _ _ _ _ _ hb (by omega) hh (by omega) (le_refl 0)
      (by omega) (by omega)]
    refine ⟨rfl, rfl, ?_, ?_⟩ <;> simp only <;> omega
  · rw [if_neg (by omega), if_pos h2] at hargs
    rw [prepareImageForMask_crop_some img _ hargs]
    simp only
    by_cases h0 : 12 * img.bounds.Dx / 40 = 0
    · rw [h0, cropImage_size_flat img _ _ _ _ _ hb]
      exact ⟨rfl, fun h => absurd h (by decide), fun _ => rfl, by decide, by decide⟩
    · rw [cropImage_size_inside img _ _ _ _ _ _ hb hw (by omega) (le_refl 0) (by omega)
        (by omega) (by omega)]
      refine ⟨rfl, fun _ => rfl, fun h => absurd h h0, ?_, ?_⟩ <;> simp only <;> omega
  · rw [if_neg (by omega), if_neg (by omega)] at hargs
    rw [prepareImageForMask_crop_none img hargs]
    exact ⟨rfl, rfl⟩

/-- Witness for C10: a 10 x 2 image at the origin is cropped to 6 x 2. -/
theorem prepareImageForMask_crop_size_witness :
    ∃ w' h' : Int,
      getImageSize (prepareImageForMask_crop (uniformImage (Rect 0 0 10 2) ⟨0, 0, 0, 65535⟩))
        = (w', h')
      ∧ w' ≤ 10 ∧ h' ≤ 2 ∧ 12 * w' ≤ 40 * h' ∧ 40 * h' < 12 * (w' + 1) := by
  obtain ⟨w', h', h1, h2, h3, h4⟩ :=
    prepareImageForMask_crop_size (uniformImage (Rect 0 0 10 2) ⟨0, 0, 0, 65535⟩)
      (by decide) (by decide)
  have h5 := (h4 (by decide)).1 (by decide)
  exact ⟨w', h', h1, h2, h3, h5.2.2.1, h5.2.2.2⟩

/-- C10 (counterexample): a 10 x 2 image at the origin is cropped to 6 x 2, and
    `6 * MaskHeight = 72` differs from `2 * MaskWidth = 80`: the aspect ratio after the
    crop step is 3, not 40/12. A 200 x 30 image whose bounds are `(100,0)-(300,30)` is
    cropped to 50 x 30, because the crop offsets are not relative to the bounds. -/
theorem prepareImageForMask_crop_not_exact :
    getImageSize (uniformImage (Rect 0 0 10 2) ⟨0, 0, 0, 65535⟩) = (10, 2)
    ∧ getImageSize (prepareImageForMask_crop (uniformImage (Rect 0 0 10 2) ⟨0, 0, 0, 65535⟩))
        = (6, 2)
    ∧ (6 : Int) * (MaskHeight : Int) ≠ 2 * (MaskWidth : Int)
    ∧ getImageSize (uniformImage (Rect 100 0 300 30) ⟨0, 0, 0, 65535⟩) = (200, 30)
    ∧ getImageSize
        (prepareImageForMask_crop (uniformImage (Rect 100 0 300 30) ⟨0, 0, 0, 65535⟩))
        = (50, 30) := by
  refine ⟨by decide, by decide!, by decide, by decide, by decide!⟩

/-! ## Claims about the branches of the crop step and the resize target -/

theorem resizeTarget_of_pos (E : Env) (img : Image) (hw : 0 ≤ img.bounds.Dx)
    (hh : 0 < img.bounds.Dy) :
    resizeTarget E img = (12 * img.bounds.Dx / img.bounds.Dy, 12) := by
  have hne : img.bounds.Dy ≠ 0 := by omega
  have hq : (12 : ℚ) * ((img.bounds.Dx : ℚ) / (img.bounds.Dy : ℚ))
      = (((12 * img.bounds.Dx : Int) : ℚ)) / (((img.bounds.Dy.toNat : Nat) : ℚ)) := by
    have hc : ((img.bounds.Dy.toNat : Nat) : ℚ) = (img.bounds.Dy : ℚ) := by
      have : ((img.bounds.Dy.toNat : Nat) : Int) = img.bounds.Dy := Int.toNat_of_nonneg (by omega)
      exact_mod_cast this
    rw [hc]
    push_cast
    ring
  have hnn : (0 : ℚ) ≤ (12 : ℚ) * ((img.bounds.Dx : ℚ) / (img.bounds.Dy : ℚ)) := by
    have h1 : (0 : ℚ) ≤ (img.bounds.Dx : ℚ) := by exact_mod_cast hw
    have h2 : (0 : ℚ) ≤ (img.bounds.Dy : ℚ) := by exact_mod_cast (le_of_lt hh)
    exact mul_nonneg (by norm_num) (div_nonneg h1 h2)
  unfold resizeTarget getImageSize F64.divInt
  simp only [if_pos hne, F64.mulInt, F64.toInt, MaskHeight, Nat.cast_ofNat, Int.cast_ofNat,
    truncToInt]
  rw [if_pos hnn, hq, Rat.floor_intCast_div_natCast, Int.toNat_of_nonneg (by omega)]

/-- C11: for every image with `h > 0` and `w * MaskHeight = h * MaskWidth`, the crop step
    takes neither branch (the image is unchanged) and the resize target is `(40, 12)`;
    for a 40 x 12 image the target dimensions are the dimensions of the image. -/
theorem prepareImageForMask_exact_aspect (E : Env) (img : Image) (hh : 0 < img.bounds.Dy)
    (hasp : img.bounds.Dx * (MaskHeight : Int) = img.bounds.Dy * (MaskWidth : Int)) :
    cropArgs img.bounds.Dx img.bounds.Dy = none
    ∧ prepareImageForMask_crop img = img
    ∧ resizeTarget E (prepareImageForMask_crop img) = (40, 12)
    ∧ (getImageSize img = (40, 12) →
        resizeTarget E (prepareImageForMask_crop img) = getImageSize img) := by
  have h1 : img.bounds.Dx * 12 = img.bounds.Dy * 40 := by
    simpa [MaskHeight, MaskWidth] using hasp
  have hw : 0 ≤ img.bounds.Dx := by omega
  have hnone : cropArgs img.bounds.Dx img.bounds.Dy = none := by
    rw [cropArgs_of_pos _ _ hw hh, if_neg (by omega), if_neg (by omega)]
  have hcrop := prepareImageForMask_crop_none img hnone
  have htarget : resizeTarget E (prepareImageForMask_crop img) = (40, 12) := by
    rw [hcrop, resizeTarget_of_pos E img hw hh]
    have : 12 * img.bounds.Dx / img.bounds.Dy = 40 := by
      rw [show 12 * img.bounds.Dx = 40 * img.bounds.Dy by omega]
      exact Int.mul_ediv_cancel 40 (by omega)
    rw [this]
  exact ⟨hnone, hcrop, htarget, fun hsz => by rw [htarget, hsz]⟩

/-- Witness for C11: a 40 x 12 image and any environment. -/
theorem prepareImageForMask_exact_aspect_witness :
    cropArgs (uniformImage (Rect 0 0 40 12) ⟨0, 0, 0, 65535⟩).bounds.Dx
        (uniformImage (Rect 0 0 40 12) ⟨0, 0, 0, 65535⟩).bounds.Dy = none
    ∧ prepareImageForMask_crop (uniformImage (Rect 0 0 40 12) ⟨0, 0, 0, 65535⟩)
        = uniformImage (Rect 0 0 40 12) ⟨0, 0, 0, 65535⟩
    ∧ resizeTarget keepEnv
        (prepareImageForMask_crop (uniformImage (Rect 0 0 40 12) ⟨0, 0, 0, 65535⟩)) = (40, 12)
    ∧ (getImageSize (uniformImage (Rect 0 0 40 12) ⟨0, 0, 0, 65535⟩) = (40, 12) →
        resizeTarget keepEnv
            (prepareImageForMask_crop (uniformImage (Rect 0 0 40 12) ⟨0, 0, 0, 65535⟩))
          = getImageSize (uniformImage (Rect 0 0 40 12) ⟨0, 0, 0, 65535⟩)) :=
  prepareImageForMask_exact_aspect keepEnv (uniformImage (Rect 0 0 40 12) ⟨0, 0, 0, 65535⟩)
    (by decide) (by decide)

/-- C12: for every image with width `w > 0` and height `h > 0` whose aspect ratio `w/h`
    is less than `MaskWidth/MaskHeight` (40/12), the crop step keeps the full width
    (`x = 0`, width `w`) and crops the height to `w / (40/12)` truncated to an integer,
    which is `floor(3w/10)`, taken at `y = (h - cropped_height) / 2`. -/
theorem cropArgs_taller (w h : Int) (hw : 0 < w) (hh : 0 < h)
    (hasp : (w : ℚ) / (h : ℚ) < 40 / 12) :
    cropArgs w h
        = some { width := w, height := ⌊(w : ℚ) / (40 / 12)⌋,
                 x := 0, y := (h - ⌊(w : ℚ) / (40 / 12)⌋) / 2 }
    ∧ ⌊(w : ℚ) / (40 / 12)⌋ = 3 * w / 10
    ∧ 0 ≤ h - ⌊(w : ℚ) / (40 / 12)⌋ := by
  rw [← maskAspect_eq, aspect_lt_iff w h hh] at hasp
  rw [floor_div_aspect, cropArgs_of_pos w h (by omega) hh, if_neg (by omega), if_pos hasp]
  exact ⟨rfl, by omega, by omega⟩

/-- Witness for C12: a 10 x 20 image is cropped to height 3 at y = 8. -/
theorem cropArgs_taller_witness :
    cropArgs 10 20
        = some { width := 10, height := ⌊((10 : Int) : ℚ) / (40 / 12)⌋,
                 x := 0, y := (20 - ⌊((10 : Int) : ℚ) / (40 / 12)⌋) / 2 }
    ∧ ⌊((10 : Int) : ℚ) / (40 / 12)⌋ = 3 * 10 / 10
    ∧ 0 ≤ 20 - ⌊((10 : Int) : ℚ) / (40 / 12)⌋ :=
  cropArgs_taller 10 20 (by decide) (by decide) (by norm_num)

/-! ## Claims about images without pixels -/

/-- Cropping to a rectangle of width 0 or height 0 gives the empty image, whatever the
    bounds of the image. -/
theorem cropImage_size_empty (img : Image) (cw ch x y : Int) (h0 : cw = 0 ∨ ch = 0) :
    getImageSize (cropImage img cw ch x y).1 = (0, 0) := by
  unfold getImageSize cropImage Image.SubImage Rectangle.Intersect Rectangle.Empty
    Rectangle.Dx Rectangle.Dy Rect ZR
  simp only [gt_iff_lt, ge_iff_le, Bool.or_eq_true, decide_eq_true_eq]
  rcases h0 with h0 | h0 <;> subst h0 <;> split_ifs <;> simp only [Prod.mk.injEq] <;> omega

theorem cropArgs_zero_zero : cropArgs 0 0 = none := by decide

theorem cropArgs_zero_height (w : Int) (hw : 0 < w) :
    ∃ args, cropArgs w 0 = some args ∧ args.height = 0 := by
  refine ⟨{ width := truncToInt (((0 : Int) : ℚ) * maskAspect), height := 0,
            x := (w - truncToInt (((0 : Int) : ℚ) * maskAspect)).tdiv 2, y := 0 }, ?_, rfl⟩
  unfold cropArgs F64.divInt
  simp only [ne_eq, not_true_eq_false, if_false, gt_iff_lt, hw, if_true, F64.gt]

theorem getPixels_length (img : Image) :
    (getPixels img).1.length = img.bounds.Max.X.toNat := by
  rw [getPixels_eq, List.length_map, List.length_range]

theorem encodeFrame_panic_iff (img : Image) :
    encodeFrame img = Outcome.panicIndexOutOfRange ↔ img.bounds.Max.X ≤ 0 := by
  have hlen := getPixels_length img
  unfold encodeFrame
  cases hb : (getPixels img).1 with
  | nil =>
    rw [hb, List.length_nil] at hlen
    simp only [true_iff]
    omega
  | cons c cs =>
    rw [hb, List.length_cons] at hlen
    constructor
    · intro h
      cases h
    · intro h
      omega

theorem encodeFrame_frame_of_pos (img : Image) (h : 0 < img.bounds.Max.X) :
    encodeFrame img
      = Outcome.frame (EncodeBitmapForMask (getPixels img).1).results
          (EncodeColorArrayFromImageForMask img) := by
  have hlen := getPixels_length img
  unfold encodeFrame
  cases hb : (getPixels img).1 with
  | nil =>
    rw [hb, List.length_nil] at hlen
    omega
  | cons c cs => rfl

/-- The crop step leaves no pixels when a dimension is zero, and for a taller image of
    width 1, 2 or 3. -/
theorem prepareImageForMask_crop_empty (img : Image)
    (hdeg : (0 ≤ img.bounds.Dx ∧ 0 ≤ img.bounds.Dy ∧ (img.bounds.Dx = 0 ∨ img.bounds.Dy = 0))
      ∨ (0 < img.bounds.Dx ∧ img.bounds.Dx ≤ 3 ∧ 12 * img.bounds.Dx < 40 * img.bounds.Dy)) :
    getImageSize (prepareImageForMask_crop img) = (0, 0) := by
  by_cases hy : img.bounds.Dy = 0
  · by_cases hx : img.bounds.Dx = 0
    · have hnone : cropArgs img.bounds.Dx img.bounds.Dy = none := by
        rw [hx, hy]; exact cropArgs_zero_zero
      rw [prepareImageForMask_crop_none img hnone]
      unfold getImageSize
      rw [hx, hy]
    · have hpos : 0 < img.bounds.Dx := by omega
      obtain ⟨args, hargs, hheight⟩ := cropArgs_zero_height img.bounds.Dx hpos
      rw [← hy] at hargs
      rw [prepareImageForMask_crop_some img args hargs]
      exact cropImage_size_empty img _ _ _ _ (Or.inr hheight)
  · have hh : 0 < img.bounds.Dy := by omega
    have hw : 0 ≤ img.bounds.Dx := by omega
    have hargs := cropArgs_of_pos img.bounds.Dx img.bounds.Dy hw hh
    rw [if_neg (by omega), if_pos (by omega)] at hargs
    rw [prepareImageForMask_crop_some img _ hargs]
    exact cropImage_size_empty img _ _ _ _ (Or.inr (by simp only; omega))

theorem resizeTarget_of_empty (E : Env) (img : Image) (h : getImageSize img = (0, 0)) :
    resizeTarget E img = (E.intOfNonFinite F64.nan, (MaskHeight : Int)) := by
  unfold resizeTarget
  rw [h]
  rfl

theorem prepareImageForMask_resize_keepEnv (img : Image) :
    prepareImageForMask_resize keepEnv img = prepareImageForMask_crop img := rfl

/-- C13 (as amended): prepareImageForMask has no error result and validates no geometry.
    For every image with a zero width or height, and for every taller image of width 1,
    2 or 3, the crop step leaves an image without pixels (0 x 0); the aspect quotient of
    the resize step is then NaN and not a failure; and the image without pixels is handed
    to the resize, with the target height MaskHeight and the target width that `int`
    gives for NaN. -/
theorem prepareImageForMask_no_pixels (E : Env) (img : Image)
    (hdeg : (0 ≤ img.bounds.Dx ∧ 0 ≤ img.bounds.Dy ∧ (img.bounds.Dx = 0 ∨ img.bounds.Dy = 0))
      ∨ (0 < img.bounds.Dx ∧ img.bounds.Dx ≤ 3 ∧ 12 * img.bounds.Dx < 40 * img.bounds.Dy)) :
    getImageSize (prepareImageForMask_crop img) = (0, 0)
    ∧ F64.divInt (getImageSize (prepareImageForMask_crop img)).1
        (getImageSize (prepareImageForMask_crop img)).2 = F64.nan
    ∧ resizeTarget E (prepareImageForMask_crop img)
        = (E.intOfNonFinite F64.nan, (MaskHeight : Int))
    ∧ prepareImageForMask_resize E img
        = E.resize (toUint (E.intOfNonFinite F64.nan)) (toUint (MaskHeight : Int))
            (prepareImageForMask_crop img) := by
  have hsize := prepareImageForMask_crop_empty img hdeg
  have htarget := resizeTarget_of_empty E _ hsize
  refine ⟨hsize, ?_, htarget, ?_⟩
  · rw [hsize]
    decide
  · unfold prepareImageForMask_resize reisizeImage
    simp only [htarget]

/-- Witness for C13: a 2 x 100 image and the environment that keeps images. -/
theorem prepareImageForMask_no_pixels_witness :
    getImageSize (prepareImageForMask_crop (uniformImage (Rect 0 0 2 100) ⟨0, 0, 0, 65535⟩))
      = (0, 0)
    ∧ resizeTarget keepEnv
        (prepareImageForMask_crop (uniformImage (Rect 0 0 2 100) ⟨0, 0, 0, 65535⟩))
      = (keepEnv.intOfNonFinite F64.nan, (MaskHeight : Int)) :=
  ⟨(prepareImageForMask_no_pixels keepEnv (uniformImage (Rect 0 0 2 100) ⟨0, 0, 0, 65535⟩)
      (Or.inr (by decide))).1,
    (prepareImageForMask_no_pixels keepEnv (uniformImage (Rect 0 0 2 100) ⟨0, 0, 0, 65535⟩)
      (Or.inr (by decide))).2.2.1⟩

/-- C13 (counterexample): with a resize that returns an image without pixels unchanged,
    neither the image with bounds `(5,0)-(5,0)`, of width 0 and height 0, nor the
    2 x 100 image, whose crop is 0 x 0, makes prepareImageForMask report an error: the
    first call returns a frame (ten bitmap bytes and an empty colour array), the second
    ends in the run-time panic of the index expression `bitmap[0]`. -/
theorem prepareImageForMask_zero_size_frame :
    getImageSize (uniformImage (Rect 5 0 5 0) ⟨0, 0, 0, 65535⟩) = (0, 0)
    ∧ prepareImageForMask keepEnv (uniformImage (Rect 5 0 5 0) ⟨0, 0, 0, 65535⟩)
        = Outcome.frame [0, 0, 0, 0, 0, 0, 0, 0, 0, 0] []
    ∧ prepareImageForMask keepEnv (uniformImage (Rect 0 0 2 100) ⟨0, 0, 0, 65535⟩)
        = Outcome.panicIndexOutOfRange := by
  have hzero : binaryVal ⟨0, 0, 0, 0⟩ = 0 := binaryVal_of_exact_lt _ (by decide)
  have hout : ∀ x y : Nat,
      (uniformImage (Rect 5 0 5 0) ⟨0, 0, 0, 65535⟩).At (x : Int) (y : Int) = ⟨0, 0, 0, 0⟩ := by
    intro x y
    rw [uniformImage_At, if_neg]
    simp only [Point.In, Rect, Bool.and_eq_true, decide_eq_true_eq]
    intro h
    simp only [gt_iff_lt, lt_self_iff_false, if_false] at h
    omega
  have hcrop : prepareImageForMask_crop (uniformImage (Rect 5 0 5 0) ⟨0, 0, 0, 65535⟩)
      = uniformImage (Rect 5 0 5 0) ⟨0, 0, 0, 65535⟩ :=
    prepareImageForMask_crop_none _ cropArgs_zero_zero
  have hbitmap : (getPixels (uniformImage (Rect 5 0 5 0) ⟨0, 0, 0, 65535⟩)).1
      = List.replicate 5 (List.replicate 12 0) := by
    rw [getPixels_eq]
    have hcol : ∀ x : Nat,
        pixelColumn (uniformImage (Rect 5 0 5 0) ⟨0, 0, 0, 65535⟩) (x : Int) MaskHeight
          = List.replicate 12 0 := by
      intro x
      rw [pixelColumn_const _ _ _ _ (fun y _ => hout x y), hzero]
      rfl
    simp only [hcol]
    rfl
  have hcolor : EncodeColorArrayFromImageForMask (uniformImage (Rect 5 0 5 0) ⟨0, 0, 0, 65535⟩)
      = [] := by
    rw [EncodeColorArrayFromImageForMask_eq]
    rfl
  refine ⟨by decide, ?_, ?_⟩
  · unfold prepareImageForMask
    rw [prepareImageForMask_resize_keepEnv, hcrop, encodeFrame_frame_of_pos _ (by decide),
      hbitmap, hcolor]
    decide
  · unfold prepareImageForMask
    rw [prepareImageForMask_resize_keepEnv]
    exact (encodeFrame_panic_iff _).2 (by decide!)

/-! ## Claims about the shape of bitmaps -/

/-- C14 (the code at a failing input): a white image with bounds `(2,0)-(5,12)` has 3
    pixel columns, but getPixels returns 5 bitmap columns, `bounds.Max.X` of them;
    column 0 of the result is read at `x = 0`, outside the image, and is all 0, although
    the first pixel column of the source, at `x = 2`, is white; the white columns come
    out as columns 2, 3 and 4. -/
theorem getPixels_offset_bounds :
    (uniformImage (Rect 2 0 5 12) ⟨65535, 65535, 65535, 65535⟩).bounds.Dx = 3
    ∧ (getPixels (uniformImage (Rect 2 0 5 12) ⟨65535, 65535, 65535, 65535⟩)).1.length = 5
    ∧ (getPixels (uniformImage (Rect 2 0 5 12) ⟨65535, 65535, 65535, 65535⟩)).1[0]?
        = some [0, 0, 0, 0, 0, 0, 0, 0, 0, 0, 0, 0]
    ∧ binaryVal ((uniformImage (Rect 2 0 5 12) ⟨65535, 65535, 65535, 65535⟩).At 2 0) = 1
    ∧ (getPixels (uniformImage (Rect 2 0 5 12) ⟨65535, 65535, 65535, 65535⟩)).1[2]?
        = some [1, 1, 1, 1, 1, 1, 1, 1, 1, 1, 1, 1] := by
  have hwhite : binaryVal ⟨65535, 65535, 65535, 65535⟩ = 1 :=
    binaryVal_of_exact_gt _ (by decide)
  have hzero : binaryVal ⟨0, 0, 0, 0⟩ = 0 := binaryVal_of_exact_lt _ (by decide)
  have hout : ∀ y : Nat, y < MaskHeight →
      (uniformImage (Rect 2 0 5 12) ⟨65535, 65535, 65535, 65535⟩).At ((0 : Nat) : Int) (y : Int)
        = ⟨0, 0, 0, 0⟩ := by
    intro y _
    rw [uniformImage_At, if_neg]
    simp [Point.In, Rect]
  have hin : ∀ y : Nat, y < MaskHeight →
      (uniformImage (Rect 2 0 5 12) ⟨65535, 65535, 65535, 65535⟩).At ((2 : Nat) : Int) (y : Int)
        = ⟨65535, 65535, 65535, 65535⟩ := by
    intro y hy
    rw [uniformImage_At, if_pos]
    unfold MaskHeight at hy
    simp [Point.In, Rect]
    omega
  have hAt : (uniformImage (Rect 2 0 5 12) ⟨65535, 65535, 65535, 65535⟩).At 2 0
      = ⟨65535, 65535, 65535, 65535⟩ := by decide
  refine ⟨by decide, ?_, ?_, ?_, ?_⟩
  · rw [getPixels_length]
    decide
  · rw [getPixels_column _ 0 (by decide), pixelColumn_const _ _ _ _ hout, hzero]
    rfl
  · rw [hAt, hwhite]
  · rw [getPixels_column _ 2 (by decide), pixelColumn_const _ _ _ _ hin, hwhite]
    rfl

theorem binaryVal_zero_or_one (c : Color) : binaryVal c = 0 ∨ binaryVal c = 1 := by
  unfold binaryVal
  split_ifs
  · exact Or.inr rfl
  · exact Or.inl rfl

theorem getPixels_column_shape (img : Image) :
    ∀ col ∈ (getPixels img).1, col.length = MaskHeight ∧ ∀ e ∈ col, e = 0 ∨ e = 1 := by
  intro col hcol
  rw [getPixels_eq, List.mem_map] at hcol
  obtain ⟨x, _, hx⟩ := hcol
  rw [← hx, pixelColumn_eq]
  refine ⟨by rw [List.length_map, List.length_range], ?_⟩
  intro e he
  rw [List.mem_map] at he
  obtain ⟨y, _, hy⟩ := he
  rw [← hy]
  exact binaryVal_zero_or_one _

theorem mem_logged_iff (bitmap : List (List Nat)) (i : Nat) :
    i ∈ (EncodeBitmapForMask bitmap).logged
      ↔ ∃ col, bitmap[i]? = some col ∧ col.length ≠ MaskHeight := by
  have h : (EncodeBitmapForMask bitmap).logged
      = (bitmap.enum.filter (fun ic => decide (ic.2.length ≠ MaskHeight))).map Prod.fst := by
    unfold EncodeBitmapForMask
    simp only [foldl_encodeStep_logged, List.nil_append]
  rw [h, List.mem_map]
  constructor
  · rintro ⟨⟨k, col⟩, hmem, hk⟩
    rw [List.mem_filter, List.mk_mem_enum_iff_getElem?] at hmem
    simp only at hk
    subst hk
    exact ⟨col, hmem.1, by simpa using hmem.2⟩
  · rintro ⟨col, hcol, hlen⟩
    refine ⟨(i, col), ?_, rfl⟩
    rw [List.mem_filter, List.mk_mem_enum_iff_getElem?]
    exact ⟨hcol, by simpa using hlen⟩

/-- C15: for every pixel source, every column of the bitmap returned by getPixels has
    exactly MaskHeight (12) entries and every entry is 0 or 1; so when EncodeBitmapForMask
    is applied to an output of getPixels the wrong-column-length branch is never taken
    (nothing is logged). -/
theorem getPixels_bitmap_invariant (img : Image) :
    (∀ col ∈ (getPixels img).1, col.length = MaskHeight ∧ ∀ e ∈ col, e = 0 ∨ e = 1)
    ∧ (EncodeBitmapForMask (getPixels img).1).logged = [] := by
  refine ⟨getPixels_column_shape img, ?_⟩
  rw [List.eq_nil_iff_forall_not_mem]
  intro i hi
  obtain ⟨col, hcol, hlen⟩ := (mem_logged_iff _ i).1 hi
  obtain ⟨hi', hget⟩ := List.getElem?_eq_some_iff.1 hcol
  exact hlen (getPixels_column_shape img col (hget ▸ List.getElem_mem hi')).1

theorem highSum_mod_sixteen {col : List Nat} (hlen : col.length = MaskHeight) :
    highSum col % 16 = 0 := by
  apply Nat.mod_eq_zero_of_dvd
  unfold highSum
  apply Finset.dvd_sum
  intro j hj
  rw [Finset.mem_filter, Finset.mem_Ico] at hj
  obtain ⟨_, hset⟩ := hj
  have hjlt : j < col.length := by
    by_contra hge
    have hnone : col[j]? = none := List.getElem?_eq_none (by omega)
    have hset' : col[j]? = some 1 := hset
    rw [hnone] at hset'
    exact absurd hset' (by simp)
  have hj11 : j ≤ 11 := by
    have : MaskHeight = 12 := rfl
    omega
  rw [show 15 - j = 4 + (11 - j) by omega, Nat.pow_add]
  exact Dvd.intro _ rfl

theorem highByte_get (bitmap : List (List Nat)) {i : Nat} (hi : i < bitmap.length) :
    (EncodeBitmapForMask bitmap).results[2 * i + 1]? = some (highSum bitmap[i]) := by
  rw [EncodeBitmapForMask_results, columnBytes_eq]
  have h := flatten_pairs_get lowSum highSum bitmap i
  rw [h.2, List.getElem?_eq_getElem hi]
  rfl

/-- C16: for every bitmap whose columns all have exactly MaskHeight = 12 entries, rows
    12..15 are zero in the packed output: for every column `i` the high byte (byte
    `2i+1`) has its four low bits clear, and bits 8, 9, 10 and 11 of the 16-bit word
    (the values 256, 512, 1024 and 2048) are never set. -/
theorem EncodeBitmapForMask_rows_12_15_clear (bitmap : List (List Nat))
    (h12 : ∀ col ∈ bitmap, col.length = MaskHeight) :
    ∀ i : Nat, i < bitmap.length →
      (∃ hb : Nat, (EncodeBitmapForMask bitmap).results[2 * i + 1]? = some hb
        ∧ hb &&& 0x0F = 0)
      ∧ ∀ k : Nat, 8 ≤ k → k ≤ 11 →
          (wordAt (EncodeBitmapForMask bitmap).results i).testBit k = false := by
  intro i hi
  have hlen := h12 _ (List.getElem_mem hi)
  have h12' : bitmap[i].length = 12 := hlen
  constructor
  · refine ⟨highSum bitmap[i], highByte_get bitmap hi, ?_⟩
    have hand := Nat.and_pow_two_sub_one_eq_mod (highSum bitmap[i]) 4
    have hmod := highSum_mod_sixteen hlen
    have h15 : (2 : Nat) ^ 4 - 1 = 0x0F := by decide
    have h16 : (2 : Nat) ^ 4 = 16 := by decide
    rw [h15, h16, hmod] at hand
    exact hand
  · intro k hk8 hk11
    rw [wordAt_EncodeBitmapForMask bitmap hi]
    have hj : 23 - k < 16 := by omega
    have hbit := encodeColumn_testBit bitmap[i] hj
    have hrow : rowBit (23 - k) = k := by
      unfold rowBit
      rw [if_neg (by omega)]
      omega
    rw [hrow, List.getElem?_eq_none (by omega)] at hbit
    by_contra hc
    rw [Bool.not_eq_false] at hc
    exact absurd (hbit.1 hc) (by simp)

/-- Witness for C16: a 12-row column with every row set packs to FF F0. -/
theorem EncodeBitmapForMask_rows_12_15_clear_witness :
    (∃ hb : Nat, (EncodeBitmapForMask [[1, 1, 1, 1, 1, 1, 1, 1, 1, 1, 1, 1]]).results[2 * 0 + 1]?
        = some hb ∧ hb &&& 0x0F = 0)
    ∧ ∀ k : Nat, 8 ≤ k → k ≤ 11 →
        (wordAt (EncodeBitmapForMask [[1, 1, 1, 1, 1, 1, 1, 1, 1, 1, 1, 1]]).results 0).testBit k
          = false :=
  EncodeBitmapForMask_rows_12_15_clear [[1, 1, 1, 1, 1, 1, 1, 1, 1, 1, 1, 1]] (by decide) 0
    (by decide)

theorem columnBytes_congr {a b : List Nat}
    (h : ∀ j, j < 16 → (a[j]? = some 1 ↔ b[j]? = some 1)) :
    columnBytes a = columnBytes b := by
  rw [columnBytes_eq]
  have hlow : lowSum a = lowSum b := by
    unfold lowSum
    apply Finset.sum_congr _ (fun _ _ => rfl)
    apply Finset.filter_congr
    intro j hj
    rw [Finset.mem_range] at hj
    exact h j (by omega)
  have hhigh : highSum a = highSum b := by
    unfold highSum
    apply Finset.sum_congr _ (fun _ _ => rfl)
    apply Finset.filter_congr
    intro j hj
    rw [Finset.mem_Ico] at hj
    exact h j hj.2
  simp only [hlow, hhigh]

/-- C18: EncodeBitmapForMask treats an entry as set only when it equals 1 and ignores
    every row at index 16 or above: two bitmaps with the same number of columns that
    agree, for every column `i` and row `j < 16`, on whether entry `[i][j]` exists and
    equals 1 are packed to the same bytes with the same (nil) error. An entry 2 or 255
    packs like 0, a row 16 is ignored, and the encoder is not injective. -/
theorem EncodeBitmapForMask_only_ones_below_16 (A B : List (List Nat))
    (hlen : A.length = B.length)
    (h : ∀ i j : Nat, j < 16 →
      (A[i]?.bind (fun col => col[j]?) = some 1 ↔ B[i]?.bind (fun col => col[j]?) = some 1)) :
    (EncodeBitmapForMask A).results = (EncodeBitmapForMask B).results
    ∧ (EncodeBitmapForMask A).err = (EncodeBitmapForMask B).err
    ∧ (EncodeBitmapForMask [[2, 255]]).results = (EncodeBitmapForMask [[0, 0]]).results
    ∧ (EncodeBitmapForMask [[0, 0, 0, 0, 0, 0, 0, 0, 0, 0, 0, 0, 0, 0, 0, 0, 1]]).results
        = (EncodeBitmapForMask [[0, 0, 0, 0, 0, 0, 0, 0, 0, 0, 0, 0, 0, 0, 0, 0]]).results
    ∧ ([[2, 255]] : List (List Nat)) ≠ [[0, 0]] := by
  refine ⟨?_, rfl, by decide, by decide, by decide⟩
  rw [EncodeBitmapForMask_results, EncodeBitmapForMask_results]
  congr 1
  apply List.ext_getElem (by simp only [List.length_map, hlen])
  intro i hiA hiB
  rw [List.length_map] at hiA hiB
  rw [List.getElem_map, List.getElem_map]
  apply columnBytes_congr
  intro j hj
  have hij := h i j hj
  rw [List.getElem?_eq_getElem hiA, List.getElem?_eq_getElem hiB] at hij
  exact hij

/-- Witness for C18: a column with entries other than 0 and 1 and a 17th row. -/
theorem EncodeBitmapForMask_only_ones_below_16_witness :
    (EncodeBitmapForMask [[1, 7, 0, 0, 0, 0, 0, 0, 0, 0, 0, 0, 0, 0, 0, 0, 1]]).results
      = (EncodeBitmapForMask [[1]]).results :=
  (EncodeBitmapForMask_only_ones_below_16
    [[1, 7, 0, 0, 0, 0, 0, 0, 0, 0, 0, 0, 0, 0, 0, 0, 1]] [[1]] (by decide)
    (by
      intro i j hj
      rcases i with _ | i
      · rcases j with _|_|_|_|_|_|_|_|_|_|_|_|_|_|_|_|j
        all_goals first
          | decide
          | omega
      · simp)).1

/-! ## Claims about the crop rectangle, the resize width and the frame -/

/-- C19: for every image with positive width `w` and height `h` whose bounds start at the
    origin, the crop rectangle computed by prepareImageForMask lies inside the image: in
    the wider branch `0 <= x` and `x + cropped_width <= w`, with the y range `0..h`; in
    the taller branch `0 <= y` and `y + cropped_height <= h`, with the x range `0..w`. -/
theorem cropArgs_inside (img : Image) (hw : 0 < img.bounds.Dx) (hh : 0 < img.bounds.Dy)
    (hmin : img.bounds.Min = { X := 0, Y := 0 }) :
    ∀ args : CropArgs, cropArgs img.bounds.Dx img.bounds.Dy = some args →
      ((img.bounds.Dx : ℚ) / (img.bounds.Dy : ℚ) > 40 / 12 →
          0 ≤ args.x ∧ args.x + args.width ≤ img.bounds.Dx
          ∧ args.y = 0 ∧ args.height = img.bounds.Dy)
      ∧ ((img.bounds.Dx : ℚ) / (img.bounds.Dy : ℚ) < 40 / 12 →
          0 ≤ args.y ∧ args.y + args.height ≤ img.bounds.Dy
          ∧ args.x = 0 ∧ args.width = img.bounds.Dx)
      ∧ img.bounds.Min.X ≤ (Rect args.x args.y (args.x + args.width)
            (args.y + args.height)).Min.X
      ∧ (Rect args.x args.y (args.x + args.width) (args.y + args.height)).Max.X
          ≤ img.bounds.Max.X
      ∧ img.bounds.Min.Y ≤ (Rect args.x args.y (args.x + args.width)
            (args.y + args.height)).Min.Y
      ∧ (Rect args.x args.y (args.x + args.width) (args.y + args.height)).Max.Y
          ≤ img.bounds.Max.Y := by
  intro args hargs
  have hb := bounds_of_origin img hmin
  have hx0 : img.bounds.Min.X = 0 := by rw [hmin]
  have hy0 : img.bounds.Min.Y = 0 := by rw [hmin]
  have hmaxX : img.bounds.Max.X = img.bounds.Dx := by
    unfold Rectangle.Dx; omega
  have hmaxY : img.bounds.Max.Y = img.bounds.Dy := by
    unfold Rectangle.Dy; omega
  have hgt := aspect_gt_iff img.bounds.Dx img.bounds.Dy hh
  have hlt := aspect_lt_iff img.bounds.Dx img.bounds.Dy hh
  rw [maskAspect_eq] at hgt hlt
  rw [cropArgs_of_pos _ _ (le_of_lt hw) hh] at hargs
  rw [hmaxX, hmaxY, hx0, hy0]
  by_cases h1 : 12 * img.bounds.Dx > 40 * img.bounds.Dy
  · rw [if_pos h1, Option.some.injEq] at hargs
    subst hargs
    refine ⟨fun _ => ⟨by simp only; omega, by simp only; omega, rfl, rfl⟩,
      fun h2 => absurd (hlt.1 h2) (by omega), ?_, ?_, ?_, ?_⟩ <;>
    · unfold Rect
      simp only [gt_iff_lt]
      split_ifs <;> simp only <;> omega
  · rw [if_neg h1] at hargs
    by_cases h2 : 12 * img.bounds.Dx < 40 * img.bounds.Dy
    · rw [if_pos h2, Option.some.injEq] at hargs
      subst hargs
      refine ⟨fun h3 => absurd (hgt.1 h3) h1,
        fun _ => ⟨by simp only; omega, by simp only; omega, rfl, rfl⟩, ?_, ?_, ?_, ?_⟩ <;>
      · unfold Rect
        simp only [gt_iff_lt]
        split_ifs <;> simp only <;> omega
    · rw [if_neg h2] at hargs
      exact absurd hargs (by simp)

/-- Witness for C19: a 10 x 2 image at the origin, cropped to x = 2 .. 8. -/
theorem cropArgs_inside_witness :
    (0 : Int) ≤ 2 ∧ (2 : Int) + 6 ≤ (uniformImage (Rect 0 0 10 2) ⟨0, 0, 0, 65535⟩).bounds.Dx :=
  ⟨((cropArgs_inside (uniformImage (Rect 0 0 10 2) ⟨0, 0, 0, 65535⟩) (by decide) (by decide)
      (by decide) { width := 6, height := 2, x := 2, y := 0 } (by decide!)).1
      (by norm_num [uniformImage, Rect, Rectangle.Dx, Rectangle.Dy])).1,
    ((cropArgs_inside (uniformImage (Rect 0 0 10 2) ⟨0, 0, 0, 65535⟩) (by decide) (by decide)
      (by decide) { width := 6, height := 2, x := 2, y := 0 } (by decide!)).1
      (by norm_num [uniformImage, Rect, Rectangle.Dx, Rectangle.Dy])).2.1⟩

theorem Intersect_Dx_nonneg (r b : Rectangle) : 0 ≤ (r.Intersect b).Dx := by
  unfold Rectangle.Intersect Rectangle.Empty Rectangle.Dx ZR
  simp only [ge_iff_le, Bool.or_eq_true, decide_eq_true_eq]
  split_ifs <;> simp only [] <;> omega

theorem prepareImageForMask_crop_Dx_nonneg (img : Image) (hw : 0 ≤ img.bounds.Dx) :
    0 ≤ (prepareImageForMask_crop img).bounds.Dx := by
  cases hargs : cropArgs img.bounds.Dx img.bounds.Dy with
  | none => rw [prepareImageForMask_crop_none img hargs]; exact hw
  | some args =>
    rw [prepareImageForMask_crop_some img args hargs]
    exact Intersect_Dx_nonneg _ _

/-- The resize target after the crop step: height MaskHeight and, when the cropped height
    `h'` is positive, the width `floor(MaskHeight * w'/h')` for the cropped dimensions
    `(w', h')`. For an image whose bounds start at the origin, the width is at most 40
    when the image is wider than the target aspect and at least 40 when the image is
    taller than the target aspect and the cropped height is at least 1. -/
theorem resizeTarget_width_of_origin (E : Env) (img : Image) (hw : 0 < img.bounds.Dx)
    (hh : 0 < img.bounds.Dy) :
    (0 < (getImageSize (prepareImageForMask_crop img)).2 →
        resizeTarget E (prepareImageForMask_crop img)
          = (12 * (getImageSize (prepareImageForMask_crop img)).1
              / (getImageSize (prepareImageForMask_crop img)).2, 12))
    ∧ (img.bounds.Min = { X := 0, Y := 0 } →
        ((img.bounds.Dx : ℚ) / (img.bounds.Dy : ℚ) > 40 / 12 →
            (resizeTarget E (prepareImageForMask_crop img)).1 ≤ 40)
        ∧ ((img.bounds.Dx : ℚ) / (img.bounds.Dy : ℚ) < 40 / 12 →
            1 ≤ (getImageSize (prepareImageForMask_crop img)).2 →
            40 ≤ (resizeTarget E (prepareImageForMask_crop img)).1)) := by
  have hgen : 0 < (getImageSize (prepareImageForMask_crop img)).2 →
      resizeTarget E (prepareImageForMask_crop img)
        = (12 * (getImageSize (prepareImageForMask_crop img)).1
            / (getImageSize (prepareImageForMask_crop img)).2, 12) := by
    intro hpos
    exact resizeTarget_of_pos E _ (prepareImageForMask_crop_Dx_nonneg img (le_of_lt hw)) hpos
  refine ⟨hgen, ?_⟩
  intro hmin
  have hb := bounds_of_origin img hmin
  have hargs := cropArgs_of_pos img.bounds.Dx img.bounds.Dy (le_of_lt hw) hh
  have hgt := aspect_gt_iff img.bounds.Dx img.bounds.Dy hh
  have hlt := aspect_lt_iff img.bounds.Dx img.bounds.Dy hh
  rw [maskAspect_eq] at hgt hlt
  constructor
  · intro h1
    have h1' := hgt.1 h1
    rw [if_pos h1'] at hargs
    have hsz : getImageSize (prepareImageForMask_crop img)
        = (40 * img.bounds.Dy / 12, img.bounds.Dy) := by
      rw [prepareImageForMask_crop_some img _ hargs]
      simp only
      exact cropImage_size_inside img _ _ _ _ _ _ hb (by omega) hh (by omega) (le_refl 0)
        (by omega) (by omega)
    rw [hgen (by rw [hsz]; exact hh), hsz]
    simp only
    apply Int.ediv_le_of_le_mul hh
    omega
  · intro h2 hh1
    have h2' := hlt.1 h2
    rw [if_neg (by omega), if_pos h2'] at hargs
    have hcrop := prepareImageForMask_crop_some img _ hargs
    have h0 : 12 * img.bounds.Dx / 40 ≠ 0 := by
      intro h0
      have hflat : getImageSize (prepareImageForMask_crop img) = (0, 0) := by
        rw [hcrop]
        simp only
        rw [h0]
        exact cropImage_size_flat img _ _ _ _ _ hb
      rw [hflat] at hh1
      exact absurd hh1 (by decide)
    have hsz : getImageSize (prepareImageForMask_crop img)
        = (img.bounds.Dx, 12 * img.bounds.Dx / 40) := by
      rw [hcrop]
      simp only
      exact cropImage_size_inside img _ _ _ _ _ _ hb hw (by omega) (le_refl 0) (by omega)
        (by omega) (by omega)
    have hpos : 0 < 12 * img.bounds.Dx / 40 := by omega
    rw [hgen (by rw [hsz]; exact hpos), hsz]
    simp only
    apply Int.le_ediv_of_mul_le hpos
    omega

/-- C17 (the code at a failing input): the 100 x 10 image with bounds `(0,5)-(100,15)` is
    wider than 40/12. The crop step asks cropImage for 33 x 10 at `(33, 0)`; the
    rectangle `(33,0)-(66,10)` is taken in absolute coordinates and clipped by the bounds,
    so the image left by the crop step is 33 x 5, and the resize width is 79, which is
    more than 40. -/
theorem resizeTarget_width_offset_bounds :
    getImageSize (uniformImage (Rect 0 5 100 15) ⟨0, 0, 0, 65535⟩) = (100, 10)
    ∧ ((100 : Int) : ℚ) / ((10 : Int) : ℚ) > 40 / 12
    ∧ cropArgs 100 10 = some { width := 33, height := 10, x := 33, y := 0 }
    ∧ getImageSize (prepareImageForMask_crop (uniformImage (Rect 0 5 100 15) ⟨0, 0, 0, 65535⟩))
        = (33, 5)
    ∧ resizeTarget keepEnv
        (prepareImageForMask_crop (uniformImage (Rect 0 5 100 15) ⟨0, 0, 0, 65535⟩))
        = (79, 12)
    ∧ ¬ ((79 : Int) ≤ 40) := by
  refine ⟨by decide, by norm_num, by decide!, by decide!, by decide!, by decide⟩

theorem EncodeColorArrayFromImageForMask_length (img : Image) :
    (EncodeColorArrayFromImageForMask img).length = 3 * MaskHeight * img.bounds.Dx.toNat := by
  rw [EncodeColorArrayFromImageForMask_eq,
    flatten_map_range_length (columnTriplets img) (MaskHeight * 3)
      (columnTriplets_length img)]
  ring

/-- The two streams built from one image whose bounds start at the origin agree on the
    column count: with `bitmap = getPixels(img)`, the colour array has
    `3 * MaskHeight * len(bitmap)` bytes and the packed bitmap has `2 * len(bitmap)`
    bytes; so a frame built from a resized image with such bounds satisfies
    `2 * len(colorArray) = 3 * MaskHeight * len(bitmapMask)`. -/
theorem frame_column_count_of_origin (img : Image) (hmin : img.bounds.Min = { X := 0, Y := 0 }) :
    (EncodeColorArrayFromImageForMask img).length
        = 3 * MaskHeight * (getPixels img).1.length
    ∧ (EncodeBitmapForMask (getPixels img).1).results.length = 2 * (getPixels img).1.length
    ∧ (∀ bitmapMask colorArray, encodeFrame img = Outcome.frame bitmapMask colorArray →
        2 * colorArray.length = 3 * MaskHeight * bitmapMask.length)
    ∧ (∀ (E : Env) (src : Image), prepareImageForMask_resize E src = img →
        ∀ bitmapMask colorArray,
          prepareImageForMask E src = Outcome.frame bitmapMask colorArray →
          2 * colorArray.length = 3 * MaskHeight * bitmapMask.length) := by
  have hx0 : img.bounds.Min.X = 0 := by rw [hmin]
  have hdx : img.bounds.Dx = img.bounds.Max.X := by
    unfold Rectangle.Dx; omega
  have hcolor : (EncodeColorArrayFromImageForMask img).length
      = 3 * MaskHeight * (getPixels img).1.length := by
    rw [EncodeColorArrayFromImageForMask_length, getPixels_length, hdx]
  have hpack := EncodeBitmapForMask_results_length (getPixels img).1
  have hframe : ∀ bitmapMask colorArray,
      encodeFrame img = Outcome.frame bitmapMask colorArray →
      2 * colorArray.length = 3 * MaskHeight * bitmapMask.length := by
    intro bitmapMask colorArray hout
    by_cases hpos : 0 < img.bounds.Max.X
    · rw [encodeFrame_frame_of_pos img hpos] at hout
      injection hout with h1 h2
      rw [← h1, ← h2, hcolor, hpack]
      ring
    · rw [(encodeFrame_panic_iff img).2 (by omega)] at hout
      cases hout
  refine ⟨hcolor, hpack, hframe, ?_⟩
  intro E src hsrc bitmapMask colorArray hout
  unfold prepareImageForMask at hout
  rw [hsrc] at hout
  exact hframe bitmapMask colorArray hout

/-- C20 (the code at a failing input): a 50 x 12 image whose bounds start at the origin.
    The crop step leaves the sub-image with bounds `(5,0)-(45,12)`, of size 40 x 12; the
    resize target is 40 x 12, the size the image has, and the resize returns it as it is.
    getPixels then builds `bounds.Max.X = 45` columns and the colour stream
    `bounds.Dx() = 40`: the frame has 90 bitmap bytes and 1440 colour bytes, and
    `2 * 1440` is not `3 * MaskHeight * 90`. -/
theorem frame_column_count_cropped :
    (uniformImage (Rect 0 0 50 12) ⟨0, 0, 0, 65535⟩).bounds.Min = { X := 0, Y := 0 }
    ∧ (prepareImageForMask_crop (uniformImage (Rect 0 0 50 12) ⟨0, 0, 0, 65535⟩)).bounds
        = Rect 5 0 45 12
    ∧ getImageSize (prepareImageForMask_crop (uniformImage (Rect 0 0 50 12) ⟨0, 0, 0, 65535⟩))
        = (40, 12)
    ∧ resizeTarget keepEnv
        (prepareImageForMask_crop (uniformImage (Rect 0 0 50 12) ⟨0, 0, 0, 65535⟩))
        = (40, 12)
    ∧ ∃ bitmapMask colorArray,
        prepareImageForMask keepEnv (uniformImage (Rect 0 0 50 12) ⟨0, 0, 0, 65535⟩)
          = Outcome.frame bitmapMask colorArray
        ∧ bitmapMask.length = 90
        ∧ colorArray.length = 1440
        ∧ 2 * colorArray.length ≠ 3 * MaskHeight * bitmapMask.length := by
  have hb : (prepareImageForMask_crop (uniformImage (Rect 0 0 50 12) ⟨0, 0, 0, 65535⟩)).bounds
      = Rect 5 0 45 12 := by decide!
  have hmax : (prepareImageForMask_crop
      (uniformImage (Rect 0 0 50 12) ⟨0, 0, 0, 65535⟩)).bounds.Max.X = 45 := by
    rw [hb]; decide
  have hdx : (prepareImageForMask_crop
      (uniformImage (Rect 0 0 50 12) ⟨0, 0, 0, 65535⟩)).bounds.Dx = 40 := by
    rw [hb]; decide
  have hmask : (EncodeBitmapForMask (getPixels (prepareImageForMask_crop
      (uniformImage (Rect 0 0 50 12) ⟨0, 0, 0, 65535⟩))).1).results.length = 90 := by
    rw [EncodeBitmapForMask_results_length, getPixels_length, hmax]
    decide
  have hcolor : (EncodeColorArrayFromImageForMask (prepareImageForMask_crop
      (uniformImage (Rect 0 0 50 12) ⟨0, 0, 0, 65535⟩))).length = 1440 := by
    rw [EncodeColorArrayFromImageForMask_length, hdx]
    decide
  refine ⟨by decide, hb, by decide!, by decide!, _, _, ?_, hmask, hcolor, ?_⟩
  · unfold prepareImageForMask
    rw [prepareImageForMask_resize_keepEnv]
    exact encodeFrame_frame_of_pos _ (by rw [hmax]; decide)
  · rw [hmask, hcolor]
    decide

end Mask
